import Mathlib

/-!
Verification development for the algorithmic SEO metadata and filename
generation engine of the ww-converter repository
(src/core/transliterate.py and src/core/renamer.py).

Python strings are modelled as Lean `String` / `List Char`; Python dicts
with a fixed key set are modelled as association lists; absent JSON keys
are modelled with `Option String` (Python `dict.get` returning `None`).
All definitions are structural so that concrete inputs evaluate inside
`decide` / `rfl` proofs.
-/

namespace WW

/-! ## Character classes and basic text utilities (renamer.py helpers) -/

/-- Whitespace as matched by the regular-expression class `\s` on the ASCII
range (space, tab, newline, carriage return, vertical tab, form feed).
The engine only ever feeds it catalog text and template literals. -/
def wsChar (c : Char) : Bool :=
  c == ' ' || c == '\t' || c == '\n' || c == '\r' ||
  c == Char.ofNat 11 || c == Char.ofNat 12

/-- Punctuation class `[|,.-]` used by `_clean_template_string`. -/
def punctChar (c : Char) : Bool :=
  c == '|' || c == ',' || c == '.' || c == '-'

/-- Model of `re.sub(r'\s+', ' ', text)`: every maximal run of whitespace
characters becomes a single space (a whitespace character directly followed
by more whitespace is dropped; the last one of a run is emitted as a space). -/
def collapseWS : List Char → List Char
  | [] => []
  | c :: cs =>
    if wsChar c && (cs.head?.elim false wsChar) then collapseWS cs
    else (if wsChar c then ' ' else c) :: collapseWS cs

/-- Model of Python `str.strip()`: remove leading and trailing whitespace. -/
def pyStrip (l : List Char) : List Char :=
  ((l.dropWhile wsChar).reverse.dropWhile wsChar).reverse

/-- Index of the last literal space in the list, as in Python
`text.rfind(' ')` (`none` models the return value -1). -/
def lastSpaceIdx : List Char → Option Nat
  | [] => none
  | c :: cs =>
    match lastSpaceIdx cs with
    | some i => some (i + 1)
    | none => if c == ' ' then some 0 else none

/-- Number of binary digits of a natural number (fuel-structured; the fuel
argument only bounds the recursion depth, which is logarithmic). -/
def bitLenAux : Nat → Nat → Nat
  | 0, _ => 0
  | fuel + 1, n => if n = 0 then 0 else bitLenAux fuel (n / 2) + 1

def bitLen (n : Nat) : Nat := bitLenAux n n

/-- The IEEE double nearest to 0.7 is 6305039478318694 / 2 ^ 53 (the real
0.7 * 2 ^ 53 = 6305039478318694.4 rounds down). -/
def float07Sig : Nat := 6305039478318694

/-- Round a natural number to 53 significant bits, ties to even, returning
the rounded value as a natural number again (the dropped low bits are
replaced by zeros).  This is exactly how an IEEE double product is rounded
once the operands are scaled to integers. -/
def roundTo53 (p : Nat) : Nat :=
  if p < 2 ^ 53 then p
  else
    let t := bitLen p - 53
    let base := p / 2 ^ t
    let rem := p % 2 ^ t
    let half := 2 ^ (t - 1)
    let q := if half < rem then base + 1
      else if rem < half then base
      else if base % 2 = 0 then base else base + 1
    q * 2 ^ t

/-- The Python expression `max_length * 0.7` as an exact scaled integer:
the IEEE double product fl(fl(max_length) * fl(0.7)) times 2 ^ 53.  For
max_length < 2 ^ 53 the conversion of the Python int to double is exact,
so the single rounding below reproduces the float bit-for-bit. -/
def floatMul07Scaled (maxLength : Nat) : Nat :=
  roundTo53 (maxLength * float07Sig)

/-- Model of `SEOFileRenamer._truncate` (renamer.py lines 501-516): collapse
whitespace and strip, return as-is when within the limit, otherwise cut at
`maxLength` and move the cut back to the last space when the float
comparison `last_space > max_length * 0.7` holds, finally strip again.
The comparison is modelled exactly: both sides are scaled by 2 ^ 53 and
the right side is the IEEE double product (floatMul07Scaled), so the
integer-against-float comparison of the source (which Python performs
exactly) is reproduced bit-for-bit for every maxLength < 2 ^ 53. -/
def truncList (l : List Char) (maxLength : Nat) : List Char :=
  let t := pyStrip (collapseWS l)
  if t.length ≤ maxLength then t
  else
    let tr := t.take maxLength
    let tr2 :=
      match lastSpaceIdx tr with
      | some i => if i * 2 ^ 53 > floatMul07Scaled maxLength then tr.take i else tr
      | none => tr
    pyStrip tr2

/-- String wrapper for `_truncate`. -/
def truncate (text : String) (maxLength : Nat) : String :=
  ⟨truncList text.data maxLength⟩

/-- Model of `re.sub(r'\s+([|,.-])', r'\1', text)`: a whitespace run that is
immediately followed by a punctuation character is deleted.  The helper
looks ahead through the run. -/
def punctAfterWS : List Char → Bool
  | [] => false
  | c :: cs => if wsChar c then punctAfterWS cs else punctChar c

def rmWSBeforePunct : List Char → List Char
  | [] => []
  | c :: cs =>
    if wsChar c && punctAfterWS cs then rmWSBeforePunct cs
    else c :: rmWSBeforePunct cs

/-- Model of `re.sub(r'([|,.-])\s+', r'\1 ', text)` as a one-pass scanner:
after emitting a punctuation character followed by whitespace we emit one
space and drop the rest of the whitespace run (state `true`). -/
def ospAux : Bool → List Char → List Char
  | _, [] => []
  | dropping, c :: cs =>
    if dropping && wsChar c then ospAux true cs
    else if punctChar c && (cs.head?.elim false wsChar) then
      c :: ' ' :: ospAux true cs
    else c :: ospAux false cs

def oneSpaceAfterPunct (l : List Char) : List Char := ospAux false l

/-- Model of `re.sub(r'^\|\s+', '', text)`: strip one leading bar together
with the whitespace run after it. -/
def rmLeadingBar : List Char → List Char
  | [] => []
  | c :: cs =>
    if c == '|' && (cs.head?.elim false wsChar) then cs.dropWhile wsChar
    else c :: cs

/-- Model of `SEOFileRenamer._clean_template_string` (renamer.py lines
518-530): collapse whitespace, drop spaces before punctuation, normalize to
one space after punctuation, strip, drop a leading bar artifact. -/
def cleanList (l : List Char) : List Char :=
  rmLeadingBar (pyStrip (oneSpaceAfterPunct (rmWSBeforePunct (collapseWS l))))

def cleanTemplateString (text : String) : String :=
  ⟨cleanList text.data⟩

/-- Model of Python `sep.join(items)`. -/
def joinSep (sep : String) : List String → String
  | [] => ""
  | [s] => s
  | s :: rest => s ++ sep ++ joinSep sep rest

/-- Decimal digits of a natural number (fuel-structured so that the kernel
can evaluate it). -/
def natDigitsAux : Nat → Nat → List Char
  | 0, _ => []
  | fuel + 1, n =>
    if n < 10 then [Char.ofNat (48 + n)]
    else natDigitsAux fuel (n / 10) ++ [Char.ofNat (48 + n % 10)]

def natRepr (n : Nat) : List Char := natDigitsAux (n + 1) n

/-- Python format `f"{n:02d}"`. -/
def pad2 (n : Nat) : String :=
  ⟨if n < 10 then '0' :: natRepr n else natRepr n⟩

/-- Python format `f"{n:03d}"`. -/
def pad3 (n : Nat) : String :=
  ⟨if n < 10 then '0' :: '0' :: natRepr n
   else if n < 100 then '0' :: natRepr n
   else natRepr n⟩

/-! ## Transliteration and slugs (transliterate.py) -/

/-- The character table UA_TO_LATIN of transliterate.py lines 7-29, as an
association list.  The source dict literal lists the ASCII apostrophe key
(codepoint 39) twice with the same empty value; a dict keeps one binding,
so it appears once here.  Codepoint 700 is the modifier letter apostrophe. -/
def UA_TO_LATIN : List (Char × String) := [
  ('А', "A"), ('Б', "B"), ('В', "V"), ('Г', "H"), ('Ґ', "G"),
  ('Д', "D"), ('Е', "E"), ('Є', "Ye"), ('Ж', "Zh"), ('З', "Z"),
  ('И', "Y"), ('І', "I"), ('Ї', "Yi"), ('Й', "Y"), ('К', "K"),
  ('Л', "L"), ('М', "M"), ('Н', "N"), ('О', "O"), ('П', "P"),
  ('Р', "R"), ('С', "S"), ('Т', "T"), ('У', "U"), ('Ф', "F"),
  ('Х', "Kh"), ('Ц', "Ts"), ('Ч', "Ch"), ('Ш', "Sh"), ('Щ', "Shch"),
  ('Ь', ""), ('Ю', "Yu"), ('Я', "Ya"),
  ('а', "a"), ('б', "b"), ('в', "v"), ('г', "h"), ('ґ', "g"),
  ('д', "d"), ('е', "e"), ('є', "ye"), ('ж', "zh"), ('з', "z"),
  ('и', "y"), ('і', "i"), ('ї', "yi"), ('й', "y"), ('к', "k"),
  ('л', "l"), ('м', "m"), ('н', "n"), ('о', "o"), ('п', "p"),
  ('р', "r"), ('с', "s"), ('т', "t"), ('у', "u"), ('ф', "f"),
  ('х', "kh"), ('ц', "ts"), ('ч', "ch"), ('ш', "sh"), ('щ', "shch"),
  ('ь', ""), ('ю', "yu"), ('я', "ya"),
  ('Ы', "Y"), ('ы', "y"), ('Э', "E"), ('э', "e"),
  ('Ё', "Yo"), ('ё', "yo"), ('Ъ', ""), ('ъ', ""),
  (Char.ofNat 39, ""), (Char.ofNat 700, "")]

/-- Python `str.isascii` for a single character. -/
def isAsciiChar (c : Char) : Bool := c.toNat < 128

/-- Model of `transliterate_ua` (transliterate.py lines 32-51): characters
with a table entry are replaced by it, other ASCII characters pass through,
everything else is dropped. -/
def translitList : List Char → List Char
  | [] => []
  | c :: cs =>
    (match UA_TO_LATIN.lookup c with
     | some repl => repl.data
     | none => if isAsciiChar c then [c] else []) ++ translitList cs

def transliterate_ua (text : String) : String := ⟨translitList text.data⟩

/-- Python `str.lower` restricted to ASCII; `to_seo_slug` only applies it
to the output of `transliterate_ua`, which is all ASCII. -/
def pyLower (c : Char) : Char :=
  if 65 ≤ c.toNat && c.toNat ≤ 90 then Char.ofNat (c.toNat + 32) else c

/-- Python `str.isalnum` restricted to ASCII (the only characters that can
reach the filter inside `to_seo_slug`). -/
def pyIsAlnumAscii (c : Char) : Bool :=
  (48 ≤ c.toNat && c.toNat ≤ 57) || (65 ≤ c.toNat && c.toNat ≤ 90) ||
  (97 ≤ c.toNat && c.toNat ≤ 122)

/-- The two replace calls `text.replace(' ', '-').replace('_', '-')`. -/
def spaceUnderscoreToHyphen (c : Char) : Char :=
  if c == ' ' || c == '_' then '-' else c

/-- The while loop of transliterate.py lines 86-87 replaces "--" by "-"
until none is left; its fixpoint turns every maximal run of hyphens into a
single hyphen, which is what this one-pass scan computes. -/
def collapseHyph : List Char → List Char
  | [] => []
  | c :: cs =>
    if c == '-' && (cs.head?.elim false (· == '-')) then collapseHyph cs
    else c :: collapseHyph cs

/-- Python `text.strip('-')`. -/
def stripHyphens (l : List Char) : List Char :=
  ((l.dropWhile (· == '-')).reverse.dropWhile (· == '-')).reverse

/-- Model of `to_seo_slug` (transliterate.py lines 54-92). -/
def to_seo_slug (text : String) : String :=
  let t1 := translitList text.data
  let t2 := t1.map pyLower
  let t3 := t2.map spaceUnderscoreToHyphen
  let t4 := t3.filter (fun c => pyIsAlnumAscii c || c == '-' || c == '.')
  let t5 := collapseHyph t4
  ⟨stripHyphens t5⟩

/-! ## Taxonomy store (categories.json shape consumed by renamer.py) -/

/-- One entry of a property list: localized values, optional canonical slug
and optional imperial equivalent.  Absent JSON keys are `none`. -/
structure AttrOption where
  ua : Option String := none
  en : Option String := none
  ru : Option String := none
  slug : Option String := none
  imperial : Option String := none
deriving DecidableEq

/-- A product type nested under a category. -/
structure TypeEntry where
  name_ua : Option String := none
  name_en : Option String := none
  name_ru : Option String := none
  slug : Option String := none
deriving DecidableEq

/-- A top-level category.  The key and the properties list of the JSON are
not consulted by the embedded functions and are omitted. -/
structure Category where
  name_ua : Option String := none
  name_en : Option String := none
  name_ru : Option String := none
  slug : Option String := none
  types : List TypeEntry := []
deriving DecidableEq

/-- The loaded categories.json data: categories and property lists, in
insertion order (Python dicts preserve it).  An absent or empty file is the
taxonomy with two empty lists; the `if self.categories_data:` truthiness
guards in the source are then vacuous (searching empty lists finds
nothing), so they are not modelled separately. -/
structure Taxonomy where
  categories : List Category := []
  lists : List (String × List AttrOption) := []
deriving DecidableEq

def emptyTaxonomy : Taxonomy := {}

/-- First option of a list matching `option.get("ua") == text or
option.get("slug") == text` (the match condition of `_get_slug`). -/
def findOptionMatch (opts : List AttrOption) (text : String) : Option AttrOption :=
  opts.find? (fun o => o.ua == some text || o.slug == some text)

/-- The lists loop of `_get_slug` (renamer.py lines 536-539). -/
def findSlugInLists : List (String × List AttrOption) → String → Option String
  | [], _ => none
  | (_, opts) :: rest, text =>
    match findOptionMatch opts text with
    | some o => some (o.slug.getD (to_seo_slug text))
    | none => findSlugInLists rest text

/-- The types loop nested in the categories loop of `_get_slug`. -/
def findSlugInTypes : List TypeEntry → String → Option String
  | [], _ => none
  | t :: rest, text =>
    if t.name_ua = some text then some (t.slug.getD (to_seo_slug text))
    else findSlugInTypes rest text

/-- The categories loop of `_get_slug` (renamer.py lines 541-546): each
category is checked by native name, then its nested types, before moving to
the next category. -/
def findSlugInCats : List Category → String → Option String
  | [], _ => none
  | cat :: rest, text =>
    if cat.name_ua = some text then some (cat.slug.getD (to_seo_slug text))
    else
      match findSlugInTypes cat.types text with
      | some s => some s
      | none => findSlugInCats rest text

/-- Model of `SEOFileRenamer._get_slug` (renamer.py lines 532-548): the
property lists are searched first, then categories with their nested
types; when nothing matches, fall back to `to_seo_slug`. -/
def getSlug (tax : Taxonomy) (text : String) : String :=
  match findSlugInLists tax.lists text with
  | some s => s
  | none =>
    match findSlugInCats tax.categories text with
    | some s => s
    | none => to_seo_slug text

/-- English fallback of `_get_localized_name`:
`to_seo_slug(key).replace("-", " ").title()`.  Python `str.title`
uppercases a letter that follows a non-letter and lowercases the rest;
slugs are ASCII, so the ASCII treatment is exact. -/
def pyTitleAux : Bool → List Char → List Char
  | _, [] => []
  | prevAlpha, c :: cs =>
    if (65 ≤ c.toNat && c.toNat ≤ 90) || (97 ≤ c.toNat && c.toNat ≤ 122) then
      (if prevAlpha then pyLower c else
        if 97 ≤ c.toNat && c.toNat ≤ 122 then Char.ofNat (c.toNat - 32) else c)
        :: pyTitleAux true cs
    else c :: pyTitleAux false cs

def enFallbackName (key : String) : String :=
  ⟨pyTitleAux false ((to_seo_slug key).data.map
    (fun c => if c == '-' then ' ' else c))⟩

/-- The language dispatch at a `_get_localized_name` match site: stored
name for the target language if present, else the en fallback or the key. -/
def locPick (en ru : Option String) (key lang : String) : String :=
  if lang = "en" then en.getD (enFallbackName key)
  else if lang = "ru" then ru.getD key
  else key

/-- The types part of the categories loop of `_get_localized_name`. -/
def findLocInTypes : List TypeEntry → String → String → Option String
  | [], _, _ => none
  | t :: rest, key, lang =>
    if t.name_ua = some key then some (locPick t.name_en t.name_ru key lang)
    else findLocInTypes rest key lang

/-- The categories loop of `_get_localized_name` (renamer.py lines
577-593). -/
def findLocInCats : List Category → String → String → Option String
  | [], _, _ => none
  | cat :: rest, key, lang =>
    if cat.name_ua = some key then some (locPick cat.name_en cat.name_ru key lang)
    else
      match findLocInTypes cat.types key lang with
      | some s => some s
      | none => findLocInCats rest key lang

/-- The lists loop of `_get_localized_name` (renamer.py lines 596-603);
options are matched by the native value only. -/
def findLocInLists : List (String × List AttrOption) → String → String → Option String
  | [], _, _ => none
  | (_, opts) :: rest, key, lang =>
    match opts.find? (fun o => o.ua == some key) with
    | some o => some (locPick o.en o.ru key lang)
    | none => findLocInLists rest key lang

/-- Model of `SEOFileRenamer._get_localized_name` (renamer.py lines
575-608). -/
def getLocalizedName (tax : Taxonomy) (key lang : String) : String :=
  match findLocInCats tax.categories key lang with
  | some s => s
  | none =>
    match findLocInLists tax.lists key lang with
    | some s => s
    | none => if lang = "en" then enFallbackName key else key

/-- Model of `SEOFileRenamer._get_imperial_value` (renamer.py lines
200-215): search only the thickness_lumber list, matched by any localized
field or the slug. -/
def getImperialValue (tax : Taxonomy) (thickness : String) : String :=
  if thickness = "" then ""
  else
    match tax.lists.lookup "thickness_lumber" with
    | none => ""
    | some opts =>
      match opts.find? (fun o => o.ua == some thickness || o.en == some thickness ||
          o.ru == some thickness || o.slug == some thickness) with
      | some o => o.imperial.getD ""
      | none => ""

/-! ## Filename generation (renamer.py lines 77-135) -/

/-- The ProductAttributes dataclass: eight optional string fields, empty
string meaning absent. -/
structure ProductAttributes where
  category : String := ""
  product_type : String := ""
  species : String := ""
  thickness : String := ""
  finish : String := ""
  size : String := ""
  grade : String := ""
  extra : String := ""
deriving DecidableEq

def emptyAttributes : ProductAttributes := {}

/-- Model of `SEOFileRenamer.generate_filename`: slugs of the non-empty
attributes in source order, then the 2-digit index when positive, joined
by hyphens after dropping empty strings (`filter(None, parts)`), with the
generic fallback when the joined name is empty. -/
def generate_filename (tax : Taxonomy) (attributes : ProductAttributes)
    (index : Nat) (extension : String) : String :=
  let parts : List String :=
    (if attributes.category ≠ "" then [getSlug tax attributes.category] else []) ++
    (if attributes.product_type ≠ "" then [getSlug tax attributes.product_type] else []) ++
    (if attributes.species ≠ "" then [getSlug tax attributes.species] else []) ++
    (if attributes.finish ≠ "" then [getSlug tax attributes.finish] else []) ++
    (if attributes.thickness ≠ "" then [getSlug tax attributes.thickness] else []) ++
    (if attributes.size ≠ "" then [getSlug tax attributes.size] else []) ++
    (if attributes.grade ≠ "" then [getSlug tax attributes.grade] else []) ++
    (if attributes.extra ≠ "" then [getSlug tax attributes.extra] else []) ++
    (if index > 0 then [pad2 index] else [])
  let filename := joinSep "-" (parts.filter (fun s => s != ""))
  let filename :=
    if filename = "" then (if index > 0 then "image-" ++ pad3 index else "image")
    else filename
  filename ++ "." ++ extension

/-! ## Metadata template engine (renamer.py lines 137-499) -/

/-- Model of `_format_thickness_with_imperial` (renamer.py lines 217-229);
both language branches of the source produce the same string. -/
def format_thickness_with_imperial (thickness imperial lang : String) : String :=
  if thickness = "" then ""
  else if imperial = "" then thickness
  else if lang = "ua" || lang = "ru" then thickness ++ " (" ++ imperial ++ ")"
  else thickness ++ " (" ++ imperial ++ ")"

/-- The composite category+type display phrase; this computation appears
verbatim in each of the three `_generate_*_metadata` functions. -/
def categoryProduct (category product : String) : String :=
  if category != "" && product != "" && category != product then
    category ++ " " ++ product
  else if category != "" then category
  else if product != "" then product
  else ""

/-- The `category_product_part` local: the phrase plus a trailing space when
non-empty. -/
def cppPart (category product : String) : String :=
  let cp := categoryProduct category product
  if cp != "" then cp ++ " " else ""

/-- The `parts` list each `_generate_*_metadata` function builds to decide
between the template path and the generic fallback path. -/
def contentParts (category product species grade thickness : String) : List String :=
  (if category ≠ "" then [category] else []) ++
  (if species ≠ "" then [species] else []) ++
  (if product ≠ "" then [product] else []) ++
  (if grade ≠ "" then [grade] else []) ++
  (if thickness ≠ "" then [thickness] else [])

/-- The `tag_parts` list (category, product, species, grade when non-empty,
then the brand token), identical in the three language functions. -/
def tagParts (category product species grade : String) : List String :=
  (if category ≠ "" then [category] else []) ++
  (if product ≠ "" then [product] else []) ++
  (if species ≠ "" then [species] else []) ++
  (if grade ≠ "" then [grade] else []) ++
  ["WoodWay Expert"]

/-- Ukrainian title templates (renamer.py lines 269-274), rendered before
truncation; the argument order is the cpp part, species, grade, thickness
parts. -/
def uaTitleTemplates (cpp sp gp tp : String) : List String := [
  cpp ++ sp ++ " " ++ tp ++ " | WoodWay Expert",
  "Купити " ++ cpp ++ sp ++ " " ++ gp ++ " | WoodWay Expert",
  cpp ++ sp ++ " " ++ gp ++ " якість | WoodWay",
  "Преміум " ++ cpp ++ sp ++ " | WoodWay Expert"]

/-- Ukrainian alt-text templates (renamer.py lines 277-282). -/
def uaAltTemplates (cpp sp gp tp : String) : List String := [
  "Натуральний " ++ cpp ++ sp ++ " з " ++ gp ++ " ґатунком, показує текстуру дерева",
  cpp ++ sp ++ " деревини, товщина " ++ tp ++ ", високоякісний матеріал",
  "Крупний план " ++ cpp ++ sp ++ " з природним малюнком дерева",
  "Високоякісний " ++ cpp ++ sp ++ ", " ++ gp ++ " ґатунок, підходить для меблів"]

/-- Ukrainian description templates (renamer.py lines 285-290). -/
def uaDescTemplates (cpp sp gp tp : String) : List String := [
  "Шукаєте " ++ cpp ++ sp ++ "? Преміум " ++ gp ++ " якість, " ++ tp ++
    ". Ідеально для меблів та інтер\x27єру. Купіть у WoodWay Expert з доставкою по Україні.",
  "Замовте " ++ cpp ++ sp ++ " онлайн. " ++ tp ++ ", " ++ gp ++
    " ґатунок. Українська майстерність, висока якість. Швидка доставка. WoodWay Expert.",
  "Купити " ++ cpp ++ sp ++ " - " ++ gp ++ " якість, " ++ tp ++
    ". Ідеально для професійних проектів. Експертна консультація. WoodWay Expert.",
  cpp ++ sp ++ " на продаж. " ++ tp ++ ", " ++ gp ++
    ". Преміум українські деревинні матеріали. Безкоштовна консультація. Замовте у WoodWay Expert."]

/-- English title templates (renamer.py lines 359-364). -/
def enTitleTemplates (cpp sp gp tp : String) : List String := [
  cpp ++ sp ++ " " ++ tp ++ " | WoodWay Expert",
  "Buy " ++ cpp ++ sp ++ " " ++ gp ++ " | WoodWay Expert",
  cpp ++ sp ++ " " ++ gp ++ " Quality | WoodWay",
  "Premium " ++ cpp ++ sp ++ " | WoodWay Expert"]

/-- English alt-text templates (renamer.py lines 367-372). -/
def enAltTemplates (cpp sp gp tp : String) : List String := [
  "Natural " ++ cpp ++ sp ++ " showing " ++ gp ++ " grade wood grain and texture",
  cpp ++ sp ++ " wood, " ++ tp ++ " thickness, high quality material",
  "Close-up view of " ++ cpp ++ sp ++ " with natural wood pattern",
  "High-quality " ++ cpp ++ sp ++ " material, " ++ gp ++ " grade, suitable for furniture"]

/-- English description templates (renamer.py lines 375-380). -/
def enDescTemplates (cpp sp gp tp : String) : List String := [
  "Looking for " ++ cpp ++ sp ++ "? Premium " ++ gp ++ " quality material, " ++ tp ++
    ". Perfect for furniture and interior design. Buy from WoodWay Expert with delivery across Ukraine.",
  "Order " ++ cpp ++ sp ++ " online. " ++ tp ++ ", " ++ gp ++
    " grade. Ukrainian craftsmanship, high quality. Fast delivery. WoodWay Expert.",
  "Buy " ++ cpp ++ sp ++ " - " ++ gp ++ " quality, " ++ tp ++
    ". Ideal for professional projects. Expert advice available. WoodWay Expert.",
  cpp ++ sp ++ " for sale. " ++ tp ++ ", " ++ gp ++
    ". Premium Ukrainian wood products. Free consultation. Order from WoodWay Expert."]

/-- Russian title templates (renamer.py lines 449-454). -/
def ruTitleTemplates (cpp sp gp tp : String) : List String := [
  cpp ++ sp ++ " " ++ tp ++ " | WoodWay Expert",
  "Купить " ++ cpp ++ sp ++ " " ++ gp ++ " | WoodWay Expert",
  cpp ++ sp ++ " " ++ gp ++ " качество | WoodWay",
  "Премиум " ++ cpp ++ sp ++ " | WoodWay Expert"]

/-- Russian alt-text templates (renamer.py lines 457-462). -/
def ruAltTemplates (cpp sp gp tp : String) : List String := [
  "Натуральный " ++ cpp ++ sp ++ " сорт " ++ gp ++ ", показывает текстуру дерева",
  cpp ++ sp ++ " древесины, толщина " ++ tp ++ ", высококачественный материал",
  "Крупный план " ++ cpp ++ sp ++ " с природным рисунком дерева",
  "Высококачественный " ++ cpp ++ sp ++ ", " ++ gp ++ " сорт, подходит для мебели"]

/-- Russian description templates (renamer.py lines 465-470). -/
def ruDescTemplates (cpp sp gp tp : String) : List String := [
  "Ищете " ++ cpp ++ sp ++ "? Премиум " ++ gp ++ " качество, " ++ tp ++
    ". Идеально для мебели и интерьера. Купите у WoodWay Expert с доставкой по Украине.",
  "Закажите " ++ cpp ++ sp ++ " онлайн. " ++ tp ++ ", " ++ gp ++
    " сорт. Украинское мастерство, высокое качество. Быстрая доставка. WoodWay Expert.",
  "Купить " ++ cpp ++ sp ++ " - " ++ gp ++ " качество, " ++ tp ++
    ". Идеально для профессиональных проектов. Экспертная консультация. WoodWay Expert.",
  cpp ++ sp ++ " в продаже. " ++ tp ++ ", " ++ gp ++
    ". Премиум украинские древесные материалы. Бесплатная консультация. Закажите у WoodWay Expert."]

/-- A language block: the four-key dict returned by the per-language
generator functions, as an association list in source order. -/
def mkBlock (alt title desc tags : String) : List (String × String) :=
  [("alt_text", alt), ("title", title), ("description", desc), ("tags", tags)]

def blockAlt (b : List (String × String)) : String := (b.lookup "alt_text").getD ""
def blockTitle (b : List (String × String)) : String := (b.lookup "title").getD ""
def blockDesc (b : List (String × String)) : String := (b.lookup "description").getD ""
def blockTags (b : List (String × String)) : String := (b.lookup "tags").getD ""

/-- Model of `_generate_ua_metadata` (renamer.py lines 231-319). -/
def genUaMetadata (category product species grade thickness imperial : String)
    (template_idx : Nat) : List (String × String) :=
  let parts := contentParts category product species grade thickness
  let cpp := cppPart category product
  let sp := species
  let gp := grade
  let tp := format_thickness_with_imperial thickness imperial "ua"
  let title := if parts = [] then "WoodWay Expert"
    else cleanTemplateString (truncate ((uaTitleTemplates cpp sp gp tp).getD template_idx "") 60)
  let alt_text := if parts = [] then "Деревина"
    else cleanTemplateString (truncate ((uaAltTemplates cpp sp gp tp).getD template_idx "") 125)
  let description := if parts = [] then "Купити деревину. Доставка по Україні. WoodWay Expert."
    else cleanTemplateString (truncate ((uaDescTemplates cpp sp gp tp).getD template_idx "") 160)
  let tags := joinSep ", " (tagParts category product species grade)
  mkBlock alt_text title description tags

/-- Model of `_generate_en_metadata` (renamer.py lines 321-409). -/
def genEnMetadata (category product species grade thickness imperial : String)
    (template_idx : Nat) : List (String × String) :=
  let parts := contentParts category product species grade thickness
  let cpp := cppPart category product
  let sp := species
  let gp := grade
  let tp := format_thickness_with_imperial thickness imperial "en"
  let title := if parts = [] then "WoodWay Expert"
    else cleanTemplateString (truncate ((enTitleTemplates cpp sp gp tp).getD template_idx "") 60)
  let alt_text := if parts = [] then "Wood product"
    else cleanTemplateString (truncate ((enAltTemplates cpp sp gp tp).getD template_idx "") 125)
  let description := if parts = [] then "Buy wood products. Delivery in Ukraine. WoodWay Expert."
    else cleanTemplateString (truncate ((enDescTemplates cpp sp gp tp).getD template_idx "") 160)
  let tags := joinSep ", " (tagParts category product species grade)
  mkBlock alt_text title description tags

/-- Model of `_generate_ru_metadata` (renamer.py lines 411-499). -/
def genRuMetadata (category product species grade thickness imperial : String)
    (template_idx : Nat) : List (String × String) :=
  let parts := contentParts category product species grade thickness
  let cpp := cppPart category product
  let sp := species
  let gp := grade
  let tp := format_thickness_with_imperial thickness imperial "ru"
  let title := if parts = [] then "WoodWay Expert"
    else cleanTemplateString (truncate ((ruTitleTemplates cpp sp gp tp).getD template_idx "") 60)
  let alt_text := if parts = [] then "Древесина"
    else cleanTemplateString (truncate ((ruAltTemplates cpp sp gp tp).getD template_idx "") 125)
  let description := if parts = [] then "Купить древесину. Доставка по Украине. WoodWay Expert."
    else cleanTemplateString (truncate ((ruDescTemplates cpp sp gp tp).getD template_idx "") 160)
  let tags := joinSep ", " (tagParts category product species grade)
  mkBlock alt_text title description tags

/-- The SEOMetadata result object: a filename and one four-key language
block per language. -/
structure SEOMetadata where
  filename : String := ""
  ua : List (String × String) := mkBlock "" "" "" ""
  en : List (String × String) := mkBlock "" "" "" ""
  ru : List (String × String) := mkBlock "" "" "" ""
deriving DecidableEq

/-- Localized value passed as `product_*`: renamer.py line 158-160,
`attributes.product_type or attributes.category` localized. -/
def productArg (tax : Taxonomy) (attrs : ProductAttributes) (lang : String) : String :=
  getLocalizedName tax
    (if attrs.product_type ≠ "" then attrs.product_type else attrs.category) lang

/-- Localized category (renamer.py lines 163-165). -/
def categoryArg (tax : Taxonomy) (attrs : ProductAttributes) (lang : String) : String :=
  if attrs.category ≠ "" then getLocalizedName tax attrs.category lang else ""

/-- Localized species (renamer.py lines 167-169). -/
def speciesArg (tax : Taxonomy) (attrs : ProductAttributes) (lang : String) : String :=
  if attrs.species ≠ "" then getLocalizedName tax attrs.species lang else ""

/-- Localized grade (renamer.py lines 171-173). -/
def gradeArg (tax : Taxonomy) (attrs : ProductAttributes) (lang : String) : String :=
  if attrs.grade ≠ "" then getLocalizedName tax attrs.grade lang else ""

/-- Imperial equivalent argument (renamer.py line 180). -/
def imperialArg (tax : Taxonomy) (attrs : ProductAttributes) : String :=
  if attrs.thickness ≠ "" then getImperialValue tax attrs.thickness else ""

/-- Model of `SEOFileRenamer.generate_basic_metadata` (renamer.py lines
137-198); the thickness argument is `attrs.thickness` for every language
and the template index is the call index modulo 4. -/
def generate_basic_metadata (tax : Taxonomy) (attrs : ProductAttributes)
    (index : Nat) (extension : String) : SEOMetadata :=
  let template_idx := index % 4
  { filename := generate_filename tax attrs index extension
    ua := genUaMetadata (categoryArg tax attrs "ua") (productArg tax attrs "ua")
      (speciesArg tax attrs "ua") (gradeArg tax attrs "ua") attrs.thickness
      (imperialArg tax attrs) template_idx
    en := genEnMetadata (categoryArg tax attrs "en") (productArg tax attrs "en")
      (speciesArg tax attrs "en") (gradeArg tax attrs "en") attrs.thickness
      (imperialArg tax attrs) template_idx
    ru := genRuMetadata (categoryArg tax attrs "ru") (productArg tax attrs "ru")
      (speciesArg tax attrs "ru") (gradeArg tax attrs "ru") attrs.thickness
      (imperialArg tax attrs) template_idx }

/-! ## Statement-support definitions

Named views of intermediate values of the engine, used to state theorems
about generate_basic_metadata without repeating its internals. -/

/-- The brand token as a character list. -/
def wwTok : List Char := "WoodWay".data

/-- Characters that can appear in the output of to_seo_slug: lowercase
ASCII letters, digits, hyphen, dot. -/
def goodChar (c : Char) : Bool :=
  (97 ≤ c.toNat && c.toNat ≤ 122) || (48 ≤ c.toNat && c.toNat ≤ 57) ||
  c == '-' || c == '.' 

/-- The content-parts list the Ukrainian generator bases its
template-versus-fallback decision on, expressed over the raw inputs. -/
def uaContentParts (tax : Taxonomy) (attrs : ProductAttributes) : List String :=
  contentParts (categoryArg tax attrs "ua") (productArg tax attrs "ua")
    (speciesArg tax attrs "ua") (gradeArg tax attrs "ua") attrs.thickness

def enContentParts (tax : Taxonomy) (attrs : ProductAttributes) : List String :=
  contentParts (categoryArg tax attrs "en") (productArg tax attrs "en")
    (speciesArg tax attrs "en") (gradeArg tax attrs "en") attrs.thickness

def ruContentParts (tax : Taxonomy) (attrs : ProductAttributes) : List String :=
  contentParts (categoryArg tax attrs "ru") (productArg tax attrs "ru")
    (speciesArg tax attrs "ru") (gradeArg tax attrs "ru") attrs.thickness

/-- The Ukrainian title exactly as rendered by the selected template,
before truncation and cleaning. -/
def renderedUaTitle (tax : Taxonomy) (attrs : ProductAttributes) (index : Nat) : String :=
  (uaTitleTemplates (cppPart (categoryArg tax attrs "ua") (productArg tax attrs "ua"))
    (speciesArg tax attrs "ua") (gradeArg tax attrs "ua")
    (format_thickness_with_imperial attrs.thickness (imperialArg tax attrs) "ua")).getD
    (index % 4) ""

def renderedEnTitle (tax : Taxonomy) (attrs : ProductAttributes) (index : Nat) : String :=
  (enTitleTemplates (cppPart (categoryArg tax attrs "en") (productArg tax attrs "en"))
    (speciesArg tax attrs "en") (gradeArg tax attrs "en")
    (format_thickness_with_imperial attrs.thickness (imperialArg tax attrs) "en")).getD
    (index % 4) ""

def renderedRuTitle (tax : Taxonomy) (attrs : ProductAttributes) (index : Nat) : String :=
  (ruTitleTemplates (cppPart (categoryArg tax attrs "ru") (productArg tax attrs "ru"))
    (speciesArg tax attrs "ru") (gradeArg tax attrs "ru")
    (format_thickness_with_imperial attrs.thickness (imperialArg tax attrs) "ru")).getD
    (index % 4) ""

/-! ## Claim-literal and amended specification definitions

Definitions in this part follow the wording of spec.md and of the claims
(not the source); each is compared against the source model above. -/

/-- The attribute values in the fixed priority order of spec section 4.3. -/
def orderedAttributeValues (attrs : ProductAttributes) : List String :=
  [attrs.category, attrs.product_type, attrs.species, attrs.finish,
   attrs.thickness, attrs.size, attrs.grade, attrs.extra]

/-- Claim C4 as written: slugs of the non-empty attributes in priority
order, the 2-digit index when positive, joined by single hyphens (no
further filtering), with the spec fallback for an empty name. -/
def filenameClaimLiteral (tax : Taxonomy) (attrs : ProductAttributes)
    (index : Nat) (extension : String) : String :=
  let slugs := ((orderedAttributeValues attrs).filter (fun v => v != "")).map (getSlug tax)
  let comps := slugs ++ (if index > 0 then [pad2 index] else [])
  let name := joinSep "-" comps
  let name :=
    if name = "" then (if index > 0 then "image-" ++ pad3 index else "image") else name
  name ++ "." ++ extension

/-- Claim C4 amended: as the claim, except that attribute slugs that come
out empty are also skipped before joining. -/
def filenameAmendedSpec (tax : Taxonomy) (attrs : ProductAttributes)
    (index : Nat) (extension : String) : String :=
  let slugs := ((orderedAttributeValues attrs).filter (fun v => v != "")).map (getSlug tax)
  let comps := (slugs ++ (if index > 0 then [pad2 index] else [])).filter (fun s => s != "")
  let name := joinSep "-" comps
  let name :=
    if name = "" then (if index > 0 then "image-" ++ pad3 index else "image") else name
  name ++ "." ++ extension

/-- Claim C10 as written: the backward cut is taken when the last space of
the prefix lies at or after position 0.7 times maxLength (the comparison
is non-strict). -/
def truncListClaim (l : List Char) (maxLength : Nat) : List Char :=
  let t := pyStrip (collapseWS l)
  if t.length ≤ maxLength then t
  else
    let tr := t.take maxLength
    let tr2 :=
      match lastSpaceIdx tr with
      | some i => if 10 * i ≥ 7 * maxLength then tr.take i else tr
      | none => tr
    pyStrip tr2

def truncateClaimLiteral (text : String) (maxLength : Nat) : String :=
  ⟨truncListClaim text.data maxLength⟩

/-- Claim C10 amended, written from the amended wording: collapse runs of
whitespace and strip; keep the text when it already fits; otherwise cut at
maxLength, move the cut back to the last space of the prefix only when
that space lies strictly after the IEEE-double product 0.7 * maxLength
(both sides scaled by 2 ^ 53 to make the comparison exact), and strip
trailing whitespace.  The double product coincides with the exact rational
0.7 * maxLength at the lengths the engine uses (60, 125, 160, and also
10), but rounds below it for some other lengths (170 for instance), where
a space exactly at the rational boundary is then used. -/
def truncateAmendedSpec (text : String) (maxLength : Nat) : String :=
  let t := pyStrip (collapseWS text.data)
  if t.length ≤ maxLength then ⟨t⟩
  else
    let tr := t.take maxLength
    match lastSpaceIdx tr with
    | none => ⟨pyStrip tr⟩
    | some i =>
      if i * 2 ^ 53 > floatMul07Scaled maxLength then ⟨pyStrip (tr.take i)⟩
      else ⟨pyStrip tr⟩

/-- Claim C9 as written: the tags are the localized values of the
non-empty attributes among category, product_type, species, grade, each
once, then the brand token. -/
def tagsClaimLiteral (tax : Taxonomy) (attrs : ProductAttributes) (lang : String) : String :=
  joinSep ", " (([categoryArg tax attrs lang,
    (if attrs.product_type ≠ "" then getLocalizedName tax attrs.product_type lang else ""),
    speciesArg tax attrs lang, gradeArg tax attrs lang].filter (fun s => s != "")) ++
    ["WoodWay Expert"])

/-- Claim C9 amended: the second slot localizes product_type when present
and otherwise localizes the category again (the source computes the
product argument from `product_type or category`). -/
def tagsAmendedFormula (tax : Taxonomy) (attrs : ProductAttributes) (lang : String) : String :=
  joinSep ", " (([categoryArg tax attrs lang, productArg tax attrs lang,
    speciesArg tax attrs lang, gradeArg tax attrs lang].filter (fun s => s != "")) ++
    ["WoodWay Expert"])

/-- Claim C8 amended: the flattened sequence of slug values produced by
every matching taxonomy entry in the order the source visits them —
options of the property lists first (matched by native value or slug),
then for each category its native name followed by its nested types. -/
def slugMatchCandidates (tax : Taxonomy) (text : String) : List String :=
  ((tax.lists.map (fun pr =>
    ((pr.2.filter (fun o => o.ua == some text || o.slug == some text)).map
      (fun o => o.slug.getD (to_seo_slug text))))).flatten) ++
  ((tax.categories.map (fun cat =>
    (if cat.name_ua = some text then [cat.slug.getD (to_seo_slug text)] else []) ++
    ((cat.types.filter (fun t => t.name_ua = some text)).map
      (fun t => t.slug.getD (to_seo_slug text))))).flatten)

/-! ## Supporting lemmas: lengths of the normalizer stages -/

theorem collapseWS_length_le (l : List Char) : (collapseWS l).length ≤ l.length := by
  induction l with
  | nil => simp [collapseWS]
  | cons c cs ih =>
    by_cases h : (wsChar c && (cs.head?.elim false wsChar)) = true
    · simp only [collapseWS, h, if_true]
      exact Nat.le_succ_of_le ih
    · simp only [collapseWS, h, if_false, List.length_cons]
      exact Nat.succ_le_succ ih

theorem pyStrip_length_le (l : List Char) : (pyStrip l).length ≤ l.length := by
  unfold pyStrip
  calc ((l.dropWhile wsChar).reverse.dropWhile wsChar).reverse.length
      = ((l.dropWhile wsChar).reverse.dropWhile wsChar).length := by
        rw [List.length_reverse]
    _ ≤ (l.dropWhile wsChar).reverse.length :=
        ((List.dropWhile_sublist _).length_le)
    _ = (l.dropWhile wsChar).length := by rw [List.length_reverse]
    _ ≤ l.length := (List.dropWhile_sublist _).length_le

theorem rmWSBeforePunct_length_le (l : List Char) :
    (rmWSBeforePunct l).length ≤ l.length := by
  induction l with
  | nil => simp [rmWSBeforePunct]
  | cons c cs ih =>
    by_cases h : (wsChar c && punctAfterWS cs) = true
    · simp only [rmWSBeforePunct, h, if_true]
      exact Nat.le_succ_of_le ih
    · simp only [rmWSBeforePunct, h, if_false, List.length_cons]
      exact Nat.succ_le_succ ih

theorem ospAux_cons (b : Bool) (c : Char) (cs : List Char) :
    ospAux b (c :: cs) =
      if b && wsChar c then ospAux true cs
      else if punctChar c && (cs.head?.elim false wsChar) then
        c :: ' ' :: ospAux true cs
      else c :: ospAux false cs := rfl

theorem ospAux_length_le : ∀ (b : Bool) (l : List Char),
    (ospAux b l).length ≤ l.length
  | _, [] => by simp [ospAux]
  | b, [c] => by
    rw [ospAux_cons]
    by_cases h1 : (b && wsChar c) = true
    · simp [h1, ospAux]
    · have h2 : (punctChar c && (([] : List Char).head?.elim false wsChar)) = false := by
        simp
      simp [h1, h2, ospAux]
  | b, c :: d :: cs => by
    rw [ospAux_cons]
    by_cases h1 : (b && wsChar c) = true
    · simp only [h1, if_true]
      exact Nat.le_succ_of_le (ospAux_length_le true (d :: cs))
    · by_cases h2 : (punctChar c && ((d :: cs).head?.elim false wsChar)) = true
      · have hd : wsChar d = true := by
          simp only [List.head?_cons, Option.elim_some, Bool.and_eq_true] at h2
          exact h2.2
        have hstep : ospAux true (d :: cs) = ospAux true cs := by
          rw [ospAux_cons]
          simp [hd]
        rw [if_neg h1, if_pos h2, hstep]
        simp only [List.length_cons]
        have := ospAux_length_le true cs
        omega
      · rw [if_neg h1, if_neg h2]
        simp only [List.length_cons]
        exact Nat.succ_le_succ (ospAux_length_le false (d :: cs))
termination_by _ l => l.length

theorem rmLeadingBar_length_le (l : List Char) :
    (rmLeadingBar l).length ≤ l.length := by
  cases l with
  | nil => simp [rmLeadingBar]
  | cons c cs =>
    by_cases h : (c == '|' && (cs.head?.elim false wsChar)) = true
    · simp only [rmLeadingBar, h, if_true, List.length_cons]
      exact Nat.le_succ_of_le (List.dropWhile_sublist _).length_le
    · simp [rmLeadingBar, h]

theorem cleanList_length_le (l : List Char) : (cleanList l).length ≤ l.length := by
  unfold cleanList
  calc (rmLeadingBar (pyStrip (oneSpaceAfterPunct (rmWSBeforePunct (collapseWS l))))).length
      ≤ (pyStrip (oneSpaceAfterPunct (rmWSBeforePunct (collapseWS l)))).length :=
        rmLeadingBar_length_le _
    _ ≤ (oneSpaceAfterPunct (rmWSBeforePunct (collapseWS l))).length := pyStrip_length_le _
    _ ≤ (rmWSBeforePunct (collapseWS l)).length := ospAux_length_le false _
    _ ≤ (collapseWS l).length := rmWSBeforePunct_length_le _
    _ ≤ l.length := collapseWS_length_le l

theorem truncList_length_le (l : List Char) (m : Nat) : (truncList l m).length ≤ m := by
  unfold truncList
  by_cases h : (pyStrip (collapseWS l)).length ≤ m
  · simp only [h, if_true]
  · simp only [h, if_false]
    have htake : ((pyStrip (collapseWS l)).take m).length ≤ m := by
      simp [List.length_take]
    cases hfind : lastSpaceIdx ((pyStrip (collapseWS l)).take m) with
    | none =>
      simp only [hfind]
      exact le_trans (pyStrip_length_le _) htake
    | some i =>
      simp only [hfind]
      by_cases hcut : i * 2 ^ 53 > floatMul07Scaled m
      · simp only [hcut, if_true]
        refine le_trans (pyStrip_length_le _) ?_
        refine le_trans ?_ htake
        exact (List.take_sublist _ _).length_le
      · simp only [hcut, if_false]
        exact le_trans (pyStrip_length_le _) htake

/-- Key length bound: the cleaned truncation of any string fits the cap. -/
theorem clean_truncate_length_le (s : String) (m : Nat) :
    (cleanTemplateString (truncate s m)).length ≤ m :=
  le_trans (cleanList_length_le _) (truncList_length_le _ _)

/-! ## Supporting lemmas: block accessors and small facts -/

theorem blockAlt_mkBlock (a t d g : String) : blockAlt (mkBlock a t d g) = a := rfl

theorem blockTitle_mkBlock (a t d g : String) : blockTitle (mkBlock a t d g) = t := rfl

theorem blockDesc_mkBlock (a t d g : String) : blockDesc (mkBlock a t d g) = d := rfl

theorem blockTags_mkBlock (a t d g : String) : blockTags (mkBlock a t d g) = g := rfl

theorem natRepr_ne_nil (n : Nat) : natRepr n ≠ [] := by
  unfold natRepr natDigitsAux
  by_cases h : n < 10 <;> simp [h]

theorem pad2_ne_empty (n : Nat) : pad2 n ≠ "" := by
  unfold pad2
  by_cases h : n < 10 <;>
    simp [h, String.ext_iff, natRepr_ne_nil]

theorem tagParts_eq_filter (c p s g : String) :
    tagParts c p s g =
      ([c, p, s, g].filter (fun x => x != "")) ++ ["WoodWay Expert"] := by
  by_cases hc : c = "" <;> by_cases hp : p = "" <;>
    by_cases hs : s = "" <;> by_cases hg : g = "" <;>
      simp [tagParts, hc, hp, hs, hg]

theorem gbm_ua (tax : Taxonomy) (attrs : ProductAttributes) (index : Nat) (ext : String) :
    (generate_basic_metadata tax attrs index ext).ua =
      genUaMetadata (categoryArg tax attrs "ua") (productArg tax attrs "ua")
        (speciesArg tax attrs "ua") (gradeArg tax attrs "ua") attrs.thickness
        (imperialArg tax attrs) (index % 4) := rfl

theorem gbm_en (tax : Taxonomy) (attrs : ProductAttributes) (index : Nat) (ext : String) :
    (generate_basic_metadata tax attrs index ext).en =
      genEnMetadata (categoryArg tax attrs "en") (productArg tax attrs "en")
        (speciesArg tax attrs "en") (gradeArg tax attrs "en") attrs.thickness
        (imperialArg tax attrs) (index % 4) := rfl

theorem gbm_ru (tax : Taxonomy) (attrs : ProductAttributes) (index : Nat) (ext : String) :
    (generate_basic_metadata tax attrs index ext).ru =
      genRuMetadata (categoryArg tax attrs "ru") (productArg tax attrs "ru")
        (speciesArg tax attrs "ru") (gradeArg tax attrs "ru") attrs.thickness
        (imperialArg tax attrs) (index % 4) := rfl

theorem genUa_block_lengths (c p s g t imp : String) (i : Nat) :
    (blockTitle (genUaMetadata c p s g t imp i)).length ≤ 60 ∧
    (blockAlt (genUaMetadata c p s g t imp i)).length ≤ 125 ∧
    (blockDesc (genUaMetadata c p s g t imp i)).length ≤ 160 := by
  unfold genUaMetadata
  refine ⟨?_, ?_, ?_⟩ <;>
    simp only [blockTitle_mkBlock, blockAlt_mkBlock, blockDesc_mkBlock] <;>
    split <;> first
      | decide
      | exact clean_truncate_length_le _ _

theorem genEn_block_lengths (c p s g t imp : String) (i : Nat) :
    (blockTitle (genEnMetadata c p s g t imp i)).length ≤ 60 ∧
    (blockAlt (genEnMetadata c p s g t imp i)).length ≤ 125 ∧
    (blockDesc (genEnMetadata c p s g t imp i)).length ≤ 160 := by
  unfold genEnMetadata
  refine ⟨?_, ?_, ?_⟩ <;>
    simp only [blockTitle_mkBlock, blockAlt_mkBlock, blockDesc_mkBlock] <;>
    split <;> first
      | decide
      | exact clean_truncate_length_le _ _

theorem genRu_block_lengths (c p s g t imp : String) (i : Nat) :
    (blockTitle (genRuMetadata c p s g t imp i)).length ≤ 60 ∧
    (blockAlt (genRuMetadata c p s g t imp i)).length ≤ 125 ∧
    (blockDesc (genRuMetadata c p s g t imp i)).length ≤ 160 := by
  unfold genRuMetadata
  refine ⟨?_, ?_, ?_⟩ <;>
    simp only [blockTitle_mkBlock, blockAlt_mkBlock, blockDesc_mkBlock] <;>
    split <;> first
      | decide
      | exact clean_truncate_length_le _ _

/-! ## Claim C1 -/

/-- C1: for every taxonomy, ProductAttributes value, index and extension,
generate_basic_metadata yields, after normalization, a title of at most 60
characters, alt text of at most 125 characters and a description of at
most 160 characters in each of the three language blocks. -/
theorem seo_length_ceilings (tax : Taxonomy) (attrs : ProductAttributes)
    (index : Nat) (ext : String) :
    ((blockTitle (generate_basic_metadata tax attrs index ext).ua).length ≤ 60 ∧
     (blockAlt (generate_basic_metadata tax attrs index ext).ua).length ≤ 125 ∧
     (blockDesc (generate_basic_metadata tax attrs index ext).ua).length ≤ 160) ∧
    ((blockTitle (generate_basic_metadata tax attrs index ext).en).length ≤ 60 ∧
     (blockAlt (generate_basic_metadata tax attrs index ext).en).length ≤ 125 ∧
     (blockDesc (generate_basic_metadata tax attrs index ext).en).length ≤ 160) ∧
    ((blockTitle (generate_basic_metadata tax attrs index ext).ru).length ≤ 60 ∧
     (blockAlt (generate_basic_metadata tax attrs index ext).ru).length ≤ 125 ∧
     (blockDesc (generate_basic_metadata tax attrs index ext).ru).length ≤ 160) := by
  rw [gbm_ua, gbm_en, gbm_ru]
  exact ⟨genUa_block_lengths _ _ _ _ _ _ _, genEn_block_lengths _ _ _ _ _ _ _,
    genRu_block_lengths _ _ _ _ _ _ _⟩

/-! ## Claim C2 -/

/-- C2: generate_basic_metadata is a total function (the Lean model cannot
raise), and for every taxonomy, attributes value (including the fully
empty one), index and extension, each of the three language blocks
consists of exactly the four keys alt_text, title, description, tags, each
bound to a string. -/
theorem seo_blocks_complete (tax : Taxonomy) (attrs : ProductAttributes)
    (index : Nat) (ext : String) :
    ((generate_basic_metadata tax attrs index ext).ua.map Prod.fst =
      ["alt_text", "title", "description", "tags"]) ∧
    ((generate_basic_metadata tax attrs index ext).en.map Prod.fst =
      ["alt_text", "title", "description", "tags"]) ∧
    ((generate_basic_metadata tax attrs index ext).ru.map Prod.fst =
      ["alt_text", "title", "description", "tags"]) :=
  ⟨rfl, rfl, rfl⟩

/-! ## Claim C5 -/

/-- C5 counterexample: with all attributes empty and index 1 the code
returns "01.webp", not the "image-001.webp" the claim predicts (the
index component makes the joined name non-empty, so the image-NNN
fallback branch is unreachable for positive indices). -/
theorem filename_fallback_counterexample :
    generate_filename emptyTaxonomy emptyAttributes 1 "webp" = "01.webp" ∧
    ("01.webp" : String) ≠ "image-001.webp" :=
  ⟨by decide, by decide⟩

/-- C5 amended: with all eight attribute fields empty, generate_filename
returns "image.{ext}" when the index is 0 and "{index:02d}.{ext}" (just
the zero-padded index) when the index is positive, for every taxonomy. -/
theorem filename_empty_attrs_amended (tax : Taxonomy) (index : Nat) (ext : String) :
    generate_filename tax emptyAttributes index ext =
      (if index = 0 then "image" else pad2 index) ++ "." ++ ext := by
  cases index with
  | zero => rfl
  | succ n =>
    have hp : (pad2 (n + 1) != "") = true := by
      simpa [bne_iff_ne] using pad2_ne_empty (n + 1)
    unfold generate_filename
    simp only [emptyAttributes]
    norm_num
    rw [List.filter_cons]
    simp only [hp, if_true, List.filter_nil]
    rw [show joinSep "-" [pad2 (n + 1)] = pad2 (n + 1) from rfl,
      if_neg (pad2_ne_empty (n + 1))]

/-! ## Claim C6 -/

/-- C6 counterexample: the ASCII apostrophe (codepoint 39) is a key of the
character table mapped to the empty string, so transliterate_ua does not
map every ASCII character to itself. -/
theorem transliterate_apostrophe_counterexample :
    transliterate_ua (String.mk [Char.ofNat 39]) = "" ∧
    transliterate_ua (String.mk [Char.ofNat 39]) ≠ String.mk [Char.ofNat 39] :=
  ⟨by decide, by decide⟩

theorem ua_keys_high_or_apos :
    ∀ p ∈ UA_TO_LATIN, 128 ≤ p.1.toNat ∨ p.1.toNat = 39 := by decide

theorem lookup_eq_none_of_keys_ne {c : Char} :
    ∀ l : List (Char × String), (∀ p ∈ l, p.1 ≠ c) → l.lookup c = none
  | [], _ => rfl
  | (k, v) :: rest, h => by
    have hk : k ≠ c := h (k, v) (List.mem_cons_self _ _)
    rw [List.lookup_cons]
    have : (c == k) = false := by
      simp [beq_eq_false_iff_ne]
      exact fun he => hk he.symm
    simp only [this, cond_false]
    exact lookup_eq_none_of_keys_ne rest (fun p hp => h p (List.mem_cons_of_mem _ hp))

theorem translit_id_of_ascii_noapos :
    ∀ l : List Char, (∀ c ∈ l, c.toNat < 128 ∧ c.toNat ≠ 39) → translitList l = l
  | [], _ => rfl
  | c :: cs, h => by
    have hc := h c (List.mem_cons_self _ _)
    have hnone : UA_TO_LATIN.lookup c = none := by
      refine lookup_eq_none_of_keys_ne _ (fun p hp he => ?_)
      rcases ua_keys_high_or_apos p hp with h1 | h1 <;> rw [he] at h1 <;> omega
    have hascii : isAsciiChar c = true := by
      simp only [isAsciiChar, decide_eq_true_eq]
      exact hc.1
    simp only [translitList, hnone, hascii, if_true, List.singleton_append]
    rw [translit_id_of_ascii_noapos cs (fun d hd => h d (List.mem_cons_of_mem _ hd))]

/-- C6 amended: every ASCII character other than the apostrophe passes
through transliterate_ua unchanged (the apostrophe is in the table, mapped
to the empty string), and characters that are neither ASCII nor table
keys are dropped silently: filtering them away first does not change the
output.  The Lean model is total, so no call raises. -/
theorem transliterate_ascii_amended :
    (∀ s : String, (∀ c ∈ s.data, c.toNat < 128 ∧ c.toNat ≠ 39) →
      transliterate_ua s = s) ∧
    (∀ l : List Char,
      translitList (l.filter (fun c => isAsciiChar c || (UA_TO_LATIN.lookup c).isSome)) =
        translitList l) := by
  constructor
  · intro s hs
    obtain ⟨d⟩ := s
    show transliterate_ua ⟨d⟩ = ⟨d⟩
    unfold transliterate_ua
    rw [translit_id_of_ascii_noapos d hs]
  · intro l
    induction l with
    | nil => rfl
    | cons c cs ih =>
      by_cases hc : (isAsciiChar c || (UA_TO_LATIN.lookup c).isSome) = true
      · rw [List.filter_cons, if_pos hc]
        show (match UA_TO_LATIN.lookup c with
          | some repl => repl.data
          | none => if isAsciiChar c then [c] else []) ++ _ = _
        rw [ih]
        rfl
      · have h1 : isAsciiChar c = false := by
          rcases Bool.or_eq_false_iff.mp (Bool.eq_false_iff.mpr hc) with ⟨ha, _⟩
          exact ha
        have h2 : UA_TO_LATIN.lookup c = none := by
          rcases Bool.or_eq_false_iff.mp (Bool.eq_false_iff.mpr hc) with ⟨_, hb⟩
          exact Option.not_isSome_iff_eq_none.mp (by simp [hb])
        rw [List.filter_cons, if_neg (by simp [hc]), ih]
        show _ = (match UA_TO_LATIN.lookup c with
          | some repl => repl.data
          | none => if isAsciiChar c then [c] else []) ++ _
        rw [h2]
        simp [h1]

/-- C6 witness: the amended pass-through statement applied to a concrete
all-ASCII string without apostrophes. -/
theorem transliterate_ascii_amended_witness :
    transliterate_ua "wood-way 01" = "wood-way 01" :=
  transliterate_ascii_amended.1 "wood-way 01" (by decide)

/-! ## Claim C9 -/

/-- C9 counterexample: with only the category set, the category's value
appears twice in the tags (once as the category, once as the product
argument computed from product_type-or-category), while the claim
predicts it once. -/
theorem tags_duplicate_category_counterexample :
    blockTags ((generate_basic_metadata emptyTaxonomy { category := "Дуб" } 0 "webp").ua) =
      "Дуб, Дуб, WoodWay Expert" ∧
    tagsClaimLiteral emptyTaxonomy { category := "Дуб" } "ua" = "Дуб, WoodWay Expert" :=
  ⟨by decide, by decide⟩

/-- C9 amended: the tags of every language block are the comma-joined
non-empty values among the localized category, the localized
product_type-or-category, the localized species and the localized grade,
followed by the fixed brand token; with all four empty this leaves the
brand token alone.  When product_type is empty but the category is not,
the category's localized value therefore appears twice. -/
theorem tags_formula_amended (tax : Taxonomy) (attrs : ProductAttributes)
    (index : Nat) (ext : String) :
    blockTags (generate_basic_metadata tax attrs index ext).ua =
      tagsAmendedFormula tax attrs "ua" ∧
    blockTags (generate_basic_metadata tax attrs index ext).en =
      tagsAmendedFormula tax attrs "en" ∧
    blockTags (generate_basic_metadata tax attrs index ext).ru =
      tagsAmendedFormula tax attrs "ru" := by
  refine ⟨?_, ?_, ?_⟩
  · rw [gbm_ua]
    unfold genUaMetadata tagsAmendedFormula
    simp only [blockTags_mkBlock]
    rw [tagParts_eq_filter]
  · rw [gbm_en]
    unfold genEnMetadata tagsAmendedFormula
    simp only [blockTags_mkBlock]
    rw [tagParts_eq_filter]
  · rw [gbm_ru]
    unfold genRuMetadata tagsAmendedFormula
    simp only [blockTags_mkBlock]
    rw [tagParts_eq_filter]

/-! ## Claim C10 -/

/-- C10 counterexample: truncating "abcdefg hij" to 10 characters leaves
the space at index 7, exactly 0.7 times the cap; the source's strict
comparison keeps the cut at 10 ("abcdefg hi"), while the claim's
at-or-after rule would cut at the space ("abcdefg"). -/
theorem truncate_boundary_counterexample :
    truncate "abcdefg hij" 10 = "abcdefg hi" ∧
    truncateClaimLiteral "abcdefg hij" 10 = "abcdefg" ∧
    ("abcdefg hi" : String) ≠ "abcdefg" :=
  ⟨by decide, by decide, by decide⟩

set_option maxRecDepth 8000 in
/-- C10 amended: _truncate collapses whitespace runs and strips, returns
the text when it fits, and otherwise cuts at max_len, moving the cut to
the last space only when that space lies strictly after the IEEE-double
product max_len * 0.7; the result is stripped.  At the caps the engine
uses (60, 125, 160; also 10) the double product equals the exact rational
0.7 * max_len, so a space exactly at position 0.7 * max_len is not used
as the cut point there; at lengths where the product rounds below the
rational boundary (170 for instance) such a space is used, as the last
conjunct shows on a concrete input. -/
theorem truncate_amended_correct :
    (∀ (s : String) (m : Nat), truncate s m = truncateAmendedSpec s m) ∧
    (floatMul07Scaled 10 = 7 * 2 ^ 53 ∧ floatMul07Scaled 60 = 42 * 2 ^ 53 ∧
      floatMul07Scaled 125 = 175 * 2 ^ 52 ∧ floatMul07Scaled 160 = 112 * 2 ^ 53 ∧
      floatMul07Scaled 170 < 119 * 2 ^ 53) ∧
    truncate (String.mk (List.replicate 119 'a' ++ ' ' :: List.replicate 60 'b')) 170 =
      String.mk (List.replicate 119 'a') := by
  refine ⟨?_, by decide, by decide⟩
  intro s m
  unfold truncate truncateAmendedSpec truncList
  by_cases h : (pyStrip (collapseWS s.data)).length ≤ m
  · simp [h]
  · simp only [h, if_false]
    cases hl : lastSpaceIdx ((pyStrip (collapseWS s.data)).take m) with
    | none => simp [hl]
    | some i =>
      simp only [hl]
      by_cases hc : floatMul07Scaled m < i * 2 ^ 53
      · rw [if_pos hc, if_pos hc]
      · rw [if_neg hc, if_neg hc]

/-! ## Claim C8 -/

theorem find?_eq_head?_filter {α : Type} (p : α → Bool) :
    ∀ l : List α, l.find? p = (l.filter p).head?
  | [] => rfl
  | a :: l => by
    by_cases h : p a = true
    · rw [List.find?_cons_of_pos _ h, List.filter_cons, if_pos h, List.head?_cons]
    · rw [List.find?_cons_of_neg _ (by simp [h]), List.filter_cons, if_neg (by simp [h])]
      exact find?_eq_head?_filter p l

theorem findSlugInLists_eq (text : String) :
    ∀ ls : List (String × List AttrOption),
      findSlugInLists ls text =
        ((ls.map (fun pr =>
          ((pr.2.filter (fun o => o.ua == some text || o.slug == some text)).map
            (fun o => o.slug.getD (to_seo_slug text))))).flatten).head?
  | [] => rfl
  | (name, opts) :: rest => by
    simp only [findSlugInLists, findOptionMatch, List.map_cons, List.flatten_cons,
      List.head?_append, List.head?_map]
    rw [find?_eq_head?_filter]
    cases h : (opts.filter (fun o => o.ua == some text || o.slug == some text)).head? with
    | some o => simp [h]
    | none => simp [h, findSlugInLists_eq text rest]

theorem findSlugInTypes_eq (text : String) :
    ∀ ts : List TypeEntry,
      findSlugInTypes ts text =
        ((ts.filter (fun t => t.name_ua = some text)).map
          (fun t => t.slug.getD (to_seo_slug text))).head?
  | [] => rfl
  | t :: rest => by
    by_cases h : t.name_ua = some text
    · simp [findSlugInTypes, h]
    · simp only [findSlugInTypes, h, if_false, List.filter_cons]
      rw [if_neg (by simp [h])]
      exact findSlugInTypes_eq text rest

theorem findSlugInCats_eq (text : String) :
    ∀ cs : List Category,
      findSlugInCats cs text =
        ((cs.map (fun cat =>
          (if cat.name_ua = some text then [cat.slug.getD (to_seo_slug text)] else []) ++
          ((cat.types.filter (fun t => t.name_ua = some text)).map
            (fun t => t.slug.getD (to_seo_slug text))))).flatten).head?
  | [] => rfl
  | cat :: rest => by
    simp only [List.map_cons, List.flatten_cons, List.head?_append]
    by_cases h : cat.name_ua = some text
    · simp [findSlugInCats, h]
    · simp only [findSlugInCats, h, if_false, List.nil_append]
      rw [findSlugInTypes_eq]
      cases ht : ((cat.types.filter (fun t => t.name_ua = some text)).map
          (fun t => t.slug.getD (to_seo_slug text))).head? with
      | some s => simp [ht]
      | none => simp [ht, findSlugInCats_eq text rest]

/-- C8 counterexample: for a native value stored both as a category (slug
"catslug") and as a property-list option (slug "optslug"), _get_slug
returns the option's slug, not the category's slug the claim predicts:
the lists are searched before the categories. -/
theorem get_slug_order_counterexample :
    getSlug
      { categories := [{ name_ua := some "x", slug := some "catslug" }],
        lists := [("species", [{ ua := some "x", slug := some "optslug" }])] } "x" =
      "optslug" ∧
    ("optslug" : String) ≠ "catslug" :=
  ⟨by decide, by decide⟩

/-- C8 amended: _get_slug returns the first element of the flattened
candidate sequence — property-list options first (matched by native value
or by slug), then, category by category, the category's native name
followed by its nested product types — and falls back to to_seo_slug of
the input when no entry matches. -/
theorem get_slug_search_order_amended (tax : Taxonomy) (text : String) :
    getSlug tax text = ((slugMatchCandidates tax text).head?).getD (to_seo_slug text) := by
  unfold getSlug slugMatchCandidates
  rw [findSlugInLists_eq, findSlugInCats_eq, List.head?_append]
  cases h1 : ((tax.lists.map (fun pr =>
      ((pr.2.filter (fun o => o.ua == some text || o.slug == some text)).map
        (fun o => o.slug.getD (to_seo_slug text))))).flatten).head? with
  | some s => simp [h1]
  | none =>
    simp only [h1, Option.none_or]
    cases h2 : ((tax.categories.map (fun cat =>
        (if cat.name_ua = some text then [cat.slug.getD (to_seo_slug text)] else []) ++
        ((cat.types.filter (fun t => t.name_ua = some text)).map
          (fun t => t.slug.getD (to_seo_slug text))))).flatten).head? with
    | some s => simp [h2]
    | none => simp [h2]

/-! ## Claim C4 -/

theorem filter_map_getSlug (tax : Taxonomy) (v : String) (rest : List String) :
    ((v :: rest).filter (fun s => s != "")).map (getSlug tax) =
      (if v ≠ "" then [getSlug tax v] else []) ++
        ((rest.filter (fun s => s != "")).map (getSlug tax)) := by
  by_cases h : v = "" <;> simp [List.filter_cons, h]

/-- C4 counterexample: a non-empty attribute whose slug is empty (the
category "!" slugifies to the empty string) is dropped by the source's
`filter(None, parts)` but kept by the claim's literal reading, which
would join it and produce a leading hyphen. -/
theorem filename_empty_slug_counterexample :
    generate_filename emptyTaxonomy { category := "!", species := "Дуб" } 0 "webp" =
      "dub.webp" ∧
    filenameClaimLiteral emptyTaxonomy { category := "!", species := "Дуб" } 0 "webp" =
      "-dub.webp" :=
  ⟨by decide, by decide⟩

/-- C4 amended: generate_filename composes the filename from the slugs of
the non-empty attributes in the fixed order category, product_type,
species, finish, thickness, size, grade, extra, joined by single hyphens
after also dropping slugs that come out empty, with the 2-digit
zero-padded index as the final component when index > 0 and the extension
appended; in particular the claim's concrete scenario holds. -/
theorem generate_filename_amended_correct :
    (∀ (tax : Taxonomy) (attrs : ProductAttributes) (index : Nat) (ext : String),
      generate_filename tax attrs index ext = filenameAmendedSpec tax attrs index ext) ∧
    generate_filename emptyTaxonomy
      { category := "Шпон", product_type := "Струганий", species := "Дуб" } 1 "webp" =
      "shpon-struhanyy-dub-01.webp" := by
  constructor
  · intro tax attrs index ext
    unfold generate_filename filenameAmendedSpec orderedAttributeValues
    rw [filter_map_getSlug, filter_map_getSlug, filter_map_getSlug, filter_map_getSlug,
      filter_map_getSlug, filter_map_getSlug, filter_map_getSlug, filter_map_getSlug]
    simp only [List.filter_nil, List.map_nil, List.append_assoc, List.append_nil]
  · decide

/-! ## Claim C3: the brand token survives normalization when nothing is cut

The normalizer stages only touch whitespace and punctuation, so a run of
plain letters such as the brand token is preserved as a contiguous
subsegment by every stage.  Truncation, however, can cut it off, which is what the
counterexample exploits. -/

theorem collapseWS_cons (c : Char) (cs : List Char) :
    collapseWS (c :: cs) =
      if wsChar c && (cs.head?.elim false wsChar) then collapseWS cs
      else (if wsChar c then ' ' else c) :: collapseWS cs := rfl

theorem rmWSBeforePunct_cons (c : Char) (cs : List Char) :
    rmWSBeforePunct (c :: cs) =
      if wsChar c && punctAfterWS cs then rmWSBeforePunct cs
      else c :: rmWSBeforePunct cs := rfl

theorem prefix_collapseWS :
    ∀ (tok : List Char), (∀ c ∈ tok, wsChar c = false) →
      ∀ l, tok <+: l → tok <+: collapseWS l
  | [], _, l, _ => List.nil_prefix
  | t :: tok', htok, l, h => by
    rcases h with ⟨r, rfl⟩
    have ht : wsChar t = false := htok t (List.mem_cons_self _ _)
    rw [List.cons_append, collapseWS_cons]
    rw [if_neg (by simp [ht]), if_neg (by simp [ht])]
    rw [List.cons_prefix_cons]
    exact ⟨rfl, prefix_collapseWS tok'
      (fun c hc => htok c (List.mem_cons_of_mem _ hc)) _ (List.prefix_append _ _)⟩

theorem infix_collapseWS (tok : List Char) (htok : ∀ c ∈ tok, wsChar c = false) :
    ∀ l, tok <:+: l → tok <:+: collapseWS l := by
  intro l
  induction l with
  | nil =>
    intro h
    rw [List.infix_nil] at h
    subst h
    exact List.nil_infix
  | cons c cs ih =>
    intro h
    rcases List.infix_cons_iff.mp h with hpre | htail
    · exact (prefix_collapseWS tok htok _ hpre).isInfix
    · rw [collapseWS_cons]
      split
      · exact ih htail
      · exact List.infix_cons (ih htail)

theorem prefix_rmWSBeforePunct :
    ∀ (tok : List Char), (∀ c ∈ tok, wsChar c = false) →
      ∀ l, tok <+: l → tok <+: rmWSBeforePunct l
  | [], _, l, _ => List.nil_prefix
  | t :: tok', htok, l, h => by
    rcases h with ⟨r, rfl⟩
    have ht : wsChar t = false := htok t (List.mem_cons_self _ _)
    rw [List.cons_append, rmWSBeforePunct_cons, if_neg (by simp [ht]),
      List.cons_prefix_cons]
    exact ⟨rfl, prefix_rmWSBeforePunct tok'
      (fun c hc => htok c (List.mem_cons_of_mem _ hc)) _ (List.prefix_append _ _)⟩

theorem infix_rmWSBeforePunct (tok : List Char) (htok : ∀ c ∈ tok, wsChar c = false) :
    ∀ l, tok <:+: l → tok <:+: rmWSBeforePunct l := by
  intro l
  induction l with
  | nil =>
    intro h
    rw [List.infix_nil] at h
    subst h
    exact List.nil_infix
  | cons c cs ih =>
    intro h
    rcases List.infix_cons_iff.mp h with hpre | htail
    · exact (prefix_rmWSBeforePunct tok htok _ hpre).isInfix
    · rw [rmWSBeforePunct_cons]
      split
      · exact ih htail
      · exact List.infix_cons (ih htail)

theorem prefix_ospAux :
    ∀ (tok : List Char), (∀ c ∈ tok, wsChar c = false ∧ punctChar c = false) →
      ∀ l (b : Bool), tok <+: l → tok <+: ospAux b l
  | [], _, l, b, _ => List.nil_prefix
  | t :: tok', htok, l, b, h => by
    rcases h with ⟨r, rfl⟩
    have ht := htok t (List.mem_cons_self _ _)
    rw [List.cons_append, ospAux_cons, if_neg (by simp [ht.1]),
      if_neg (by simp [ht.2]), List.cons_prefix_cons]
    exact ⟨rfl, prefix_ospAux tok'
      (fun c hc => htok c (List.mem_cons_of_mem _ hc)) _ false (List.prefix_append _ _)⟩

theorem infix_ospAux (tok : List Char)
    (htok : ∀ c ∈ tok, wsChar c = false ∧ punctChar c = false) :
    ∀ l, tok <:+: l → ∀ b, tok <:+: ospAux b l := by
  intro l
  induction l with
  | nil =>
    intro h b
    rw [List.infix_nil] at h
    subst h
    exact List.nil_infix
  | cons c cs ih =>
    intro h b
    rcases List.infix_cons_iff.mp h with hpre | htail
    · exact (prefix_ospAux tok htok _ b hpre).isInfix
    · rw [ospAux_cons]
      split
      · exact ih htail true
      · split
        · exact List.infix_cons (List.infix_cons (ih htail true))
        · exact List.infix_cons (ih htail false)

theorem infix_dropWhile (p : Char → Bool) (tok : List Char)
    (hhead : ∀ c, tok.head? = some c → p c = false) :
    ∀ l, tok <:+: l → tok <:+: l.dropWhile p := by
  intro l
  induction l with
  | nil =>
    intro h
    rw [List.infix_nil] at h
    subst h
    exact List.nil_infix
  | cons c cs ih =>
    intro h
    by_cases hc : p c = true
    · rw [List.dropWhile_cons_of_pos hc]
      rcases List.infix_cons_iff.mp h with hpre | htail
      · cases tok with
        | nil => exact List.nil_infix
        | cons t tok' =>
          rcases (List.cons_prefix_cons.mp hpre) with ⟨rfl, _⟩
          rw [hhead t rfl] at hc
          exact absurd hc (by simp)
      · exact ih htail
    · rw [List.dropWhile_cons_of_neg (by simpa using hc)]
      exact h

theorem infix_pyStrip (tok : List Char)
    (hh : ∀ c, tok.head? = some c → wsChar c = false)
    (hl : ∀ c, tok.reverse.head? = some c → wsChar c = false)
    (l : List Char) (h : tok <:+: l) : tok <:+: pyStrip l := by
  unfold pyStrip
  have h1 : tok <:+: l.dropWhile wsChar := infix_dropWhile wsChar tok hh l h
  have h2 : tok.reverse <:+: (l.dropWhile wsChar).reverse :=
    List.reverse_infix.mpr h1
  have h3 : tok.reverse <:+: ((l.dropWhile wsChar).reverse).dropWhile wsChar :=
    infix_dropWhile wsChar tok.reverse hl _ h2
  have h4 := List.reverse_infix.mpr h3
  simpa using h4

theorem infix_rmLeadingBar (tok : List Char)
    (hbar : ∀ c, tok.head? = some c → (c == '|') = false)
    (hws : ∀ c, tok.head? = some c → wsChar c = false) :
    ∀ l, tok <:+: l → tok <:+: rmLeadingBar l := by
  intro l h
  cases l with
  | nil =>
    rw [List.infix_nil] at h
    subst h
    exact List.nil_infix
  | cons c cs =>
    show tok <:+: (if c == '|' && (cs.head?.elim false wsChar) then cs.dropWhile wsChar
      else c :: cs)
    split
    · rename_i hcond
      have hc : (c == '|') = true := by
        simp only [Bool.and_eq_true] at hcond
        exact hcond.1
      rcases List.infix_cons_iff.mp h with hpre | htail
      · cases tok with
        | nil => exact List.nil_infix
        | cons t tok' =>
          rcases (List.cons_prefix_cons.mp hpre) with ⟨rfl, _⟩
          rw [hbar t rfl] at hc
          exact absurd hc (by simp)
      · exact infix_dropWhile wsChar tok hws cs htail
    · exact h

theorem wwTok_chars : ∀ c ∈ wwTok, wsChar c = false ∧ punctChar c = false := by decide

theorem cleanTemplateString_data (s : String) :
    (cleanTemplateString s).data = cleanList s.data := rfl

theorem ww_infix_cleanList (l : List Char) (h : wwTok <:+: l) :
    wwTok <:+: cleanList l := by
  unfold cleanList
  have h1 := infix_collapseWS wwTok (fun c hc => (wwTok_chars c hc).1) l h
  have h2 := infix_rmWSBeforePunct wwTok (fun c hc => (wwTok_chars c hc).1) _ h1
  have h3 := infix_ospAux wwTok wwTok_chars _ h2 false
  have h4 := infix_pyStrip wwTok (by decide) (by decide) _ h3
  exact infix_rmLeadingBar wwTok (by decide) (by decide) _ h4

theorem ww_infix_truncate_of_fits (s : String) (m : Nat)
    (h : wwTok <:+: s.data)
    (hlen : (pyStrip (collapseWS s.data)).length ≤ m) :
    wwTok <:+: (truncate s m).data := by
  show wwTok <:+: truncList s.data m
  unfold truncList
  rw [if_pos hlen]
  exact infix_pyStrip wwTok (by decide) (by decide) _
    (infix_collapseWS wwTok (fun c hc => (wwTok_chars c hc).1) _ h)

theorem ww_infix_str_append (pre s : String) (h : wwTok <:+: s.data) :
    wwTok <:+: (pre ++ s).data := by
  rw [String.data_append]
  rcases h with ⟨a, b, hab⟩
  exact ⟨pre.data ++ a, b, by rw [← hab]; simp⟩

theorem ww_in_uaTitle (cpp sp gp tp : String) (i : Nat) (h4 : i < 4) :
    wwTok <:+: ((uaTitleTemplates cpp sp gp tp).getD i "").data := by
  interval_cases i
  · exact ww_infix_str_append (cpp ++ sp ++ " " ++ tp) " | WoodWay Expert" (by decide)
  · exact ww_infix_str_append ("Купити " ++ cpp ++ sp ++ " " ++ gp)
      " | WoodWay Expert" (by decide)
  · exact ww_infix_str_append (cpp ++ sp ++ " " ++ gp) " якість | WoodWay" (by decide)
  · exact ww_infix_str_append ("Преміум " ++ cpp ++ sp) " | WoodWay Expert" (by decide)

theorem ww_in_enTitle (cpp sp gp tp : String) (i : Nat) (h4 : i < 4) :
    wwTok <:+: ((enTitleTemplates cpp sp gp tp).getD i "").data := by
  interval_cases i
  · exact ww_infix_str_append (cpp ++ sp ++ " " ++ tp) " | WoodWay Expert" (by decide)
  · exact ww_infix_str_append ("Buy " ++ cpp ++ sp ++ " " ++ gp)
      " | WoodWay Expert" (by decide)
  · exact ww_infix_str_append (cpp ++ sp ++ " " ++ gp) " Quality | WoodWay" (by decide)
  · exact ww_infix_str_append ("Premium " ++ cpp ++ sp) " | WoodWay Expert" (by decide)

theorem ww_in_ruTitle (cpp sp gp tp : String) (i : Nat) (h4 : i < 4) :
    wwTok <:+: ((ruTitleTemplates cpp sp gp tp).getD i "").data := by
  interval_cases i
  · exact ww_infix_str_append (cpp ++ sp ++ " " ++ tp) " | WoodWay Expert" (by decide)
  · exact ww_infix_str_append ("Купить " ++ cpp ++ sp ++ " " ++ gp)
      " | WoodWay Expert" (by decide)
  · exact ww_infix_str_append (cpp ++ sp ++ " " ++ gp) " качество | WoodWay" (by decide)
  · exact ww_infix_str_append ("Премиум " ++ cpp ++ sp) " | WoodWay Expert" (by decide)

theorem genUa_title_brand (c p s g t imp : String) (i : Nat) (h4 : i < 4)
    (hfit : contentParts c p s g t = [] ∨
      (pyStrip (collapseWS ((uaTitleTemplates (cppPart c p) s g
        (format_thickness_with_imperial t imp "ua")).getD i "").data)).length ≤ 60) :
    wwTok <:+: (blockTitle (genUaMetadata c p s g t imp i)).data := by
  unfold genUaMetadata
  simp only [blockTitle_mkBlock]
  by_cases hparts : contentParts c p s g t = []
  · rw [if_pos hparts]
    decide
  · rw [if_neg hparts]
    rcases hfit with hempty | hlen
    · exact absurd hempty hparts
    · rw [cleanTemplateString_data]
      exact ww_infix_cleanList _
        (ww_infix_truncate_of_fits _ _ (ww_in_uaTitle _ _ _ _ i h4) hlen)

theorem genEn_title_brand (c p s g t imp : String) (i : Nat) (h4 : i < 4)
    (hfit : contentParts c p s g t = [] ∨
      (pyStrip (collapseWS ((enTitleTemplates (cppPart c p) s g
        (format_thickness_with_imperial t imp "en")).getD i "").data)).length ≤ 60) :
    wwTok <:+: (blockTitle (genEnMetadata c p s g t imp i)).data := by
  unfold genEnMetadata
  simp only [blockTitle_mkBlock]
  by_cases hparts : contentParts c p s g t = []
  · rw [if_pos hparts]
    decide
  · rw [if_neg hparts]
    rcases hfit with hempty | hlen
    · exact absurd hempty hparts
    · rw [cleanTemplateString_data]
      exact ww_infix_cleanList _
        (ww_infix_truncate_of_fits _ _ (ww_in_enTitle _ _ _ _ i h4) hlen)

theorem genRu_title_brand (c p s g t imp : String) (i : Nat) (h4 : i < 4)
    (hfit : contentParts c p s g t = [] ∨
      (pyStrip (collapseWS ((ruTitleTemplates (cppPart c p) s g
        (format_thickness_with_imperial t imp "ru")).getD i "").data)).length ≤ 60) :
    wwTok <:+: (blockTitle (genRuMetadata c p s g t imp i)).data := by
  unfold genRuMetadata
  simp only [blockTitle_mkBlock]
  by_cases hparts : contentParts c p s g t = []
  · rw [if_pos hparts]
    decide
  · rw [if_neg hparts]
    rcases hfit with hempty | hlen
    · exact absurd hempty hparts
    · rw [cleanTemplateString_data]
      exact ww_infix_cleanList _
        (ww_infix_truncate_of_fits _ _ (ww_in_ruTitle _ _ _ _ i h4) hlen)

/-- C3 counterexample: with a 61-character category, the rendered title
exceeds 60 characters and truncation cuts off the trailing brand token,
so the Ukrainian title contains no "WoodWay". -/
theorem brand_token_lost_on_long_title :
    ¬ wwTok <:+: (blockTitle ((generate_basic_metadata emptyTaxonomy
      { category := String.mk (List.replicate 61 'a') } 0 "webp").ua)).data := by
  decide

/-- C3 amended: every title of generate_basic_metadata contains the brand
token "WoodWay" on the all-attributes-empty fallback path, and on the
template path whenever the whitespace-collapsed, stripped rendered title
fits within 60 characters; titles whose rendering exceeds 60 characters
can lose the token to truncation. -/
theorem brand_token_in_titles_amended (tax : Taxonomy) (attrs : ProductAttributes)
    (index : Nat) (ext : String)
    (hua : uaContentParts tax attrs = [] ∨
      (pyStrip (collapseWS (renderedUaTitle tax attrs index).data)).length ≤ 60)
    (hen : enContentParts tax attrs = [] ∨
      (pyStrip (collapseWS (renderedEnTitle tax attrs index).data)).length ≤ 60)
    (hru : ruContentParts tax attrs = [] ∨
      (pyStrip (collapseWS (renderedRuTitle tax attrs index).data)).length ≤ 60) :
    wwTok <:+: (blockTitle (generate_basic_metadata tax attrs index ext).ua).data ∧
    wwTok <:+: (blockTitle (generate_basic_metadata tax attrs index ext).en).data ∧
    wwTok <:+: (blockTitle (generate_basic_metadata tax attrs index ext).ru).data := by
  refine ⟨?_, ?_, ?_⟩
  · rw [gbm_ua]
    exact genUa_title_brand _ _ _ _ _ _ _ (Nat.mod_lt _ (by norm_num)) hua
  · rw [gbm_en]
    exact genEn_title_brand _ _ _ _ _ _ _ (Nat.mod_lt _ (by norm_num)) hen
  · rw [gbm_ru]
    exact genRu_title_brand _ _ _ _ _ _ _ (Nat.mod_lt _ (by norm_num)) hru

/-- C3 witness: the amended statement applied at a concrete taxonomy-free
input whose rendered titles all fit in 60 characters. -/
theorem brand_token_in_titles_amended_witness :
    wwTok <:+: (blockTitle (generate_basic_metadata emptyTaxonomy
      { category := "Дуб" } 0 "webp").ua).data ∧
    wwTok <:+: (blockTitle (generate_basic_metadata emptyTaxonomy
      { category := "Дуб" } 0 "webp").en).data ∧
    wwTok <:+: (blockTitle (generate_basic_metadata emptyTaxonomy
      { category := "Дуб" } 0 "webp").ru).data :=
  brand_token_in_titles_amended emptyTaxonomy { category := "Дуб" } 0 "webp"
    (Or.inr (by decide)) (Or.inr (by decide)) (Or.inr (by decide))

/-! ## Claim C7: idempotence of to_seo_slug

Strategy: every character of a slug is a lowercase ASCII letter, a digit,
a hyphen or a dot; a slug has no adjacent hyphens and neither starts nor
ends with one.  Each pipeline stage is the identity on such strings. -/

theorem goodChar_facts {c : Char} (h : goodChar c = true) :
    c.toNat < 128 ∧ c.toNat ≠ 39 ∧ ¬(65 ≤ c.toNat ∧ c.toNat ≤ 90) ∧
    c.toNat ≠ 32 ∧ c.toNat ≠ 95 := by
  simp only [goodChar, Bool.or_eq_true, Bool.and_eq_true, decide_eq_true_eq,
    beq_iff_eq] at h
  rcases h with ((⟨h1, h2⟩ | ⟨h1, h2⟩) | h1) | h1
  · omega
  · omega
  · subst h1
    refine ⟨by decide, by decide, by decide, by decide, by decide⟩
  · subst h1
    refine ⟨by decide, by decide, by decide, by decide, by decide⟩

theorem ua_keys_not_good : ∀ p ∈ UA_TO_LATIN, goodChar p.1 = false := by decide

theorem lookup_none_of_goodChar {c : Char} (h : goodChar c = true) :
    UA_TO_LATIN.lookup c = none := by
  refine lookup_eq_none_of_keys_ne _ (fun p hp he => ?_)
  have hng := ua_keys_not_good p hp
  rw [he, h] at hng
  exact absurd hng (by simp)

theorem translit_id_of_good (l : List Char) (h : ∀ c ∈ l, goodChar c = true) :
    translitList l = l :=
  translit_id_of_ascii_noapos l (fun c hc =>
    ⟨(goodChar_facts (h c hc)).1, (goodChar_facts (h c hc)).2.1⟩)

theorem pyLower_id_of_good {c : Char} (h : goodChar c = true) : pyLower c = c := by
  have hf := goodChar_facts h
  unfold pyLower
  rw [if_neg]
  simp only [Bool.and_eq_true, decide_eq_true_eq]
  intro hc
  exact hf.2.2.1 hc

theorem s2h_id_of_good {c : Char} (h : goodChar c = true) :
    spaceUnderscoreToHyphen c = c := by
  have hf := goodChar_facts h
  unfold spaceUnderscoreToHyphen
  rw [if_neg]
  simp only [Bool.or_eq_true, beq_iff_eq]
  rintro (rfl | rfl)
  · exact hf.2.2.2.1 rfl
  · exact hf.2.2.2.2 rfl

theorem keep_of_good {c : Char} (h : goodChar c = true) :
    (pyIsAlnumAscii c || c == '-' || c == '.') = true := by
  simp only [goodChar, pyIsAlnumAscii, Bool.or_eq_true, Bool.and_eq_true,
    decide_eq_true_eq, beq_iff_eq] at h ⊢
  rcases h with ((h1 | h1) | h1) | h1
  · exact Or.inl (Or.inl (Or.inr h1))
  · exact Or.inl (Or.inl (Or.inl (Or.inl h1)))
  · exact Or.inl (Or.inr h1)
  · exact Or.inr h1

theorem map_id_of_forall {α : Type} (f : α → α) :
    ∀ l : List α, (∀ c ∈ l, f c = c) → l.map f = l
  | [], _ => rfl
  | a :: l, h => by
    rw [List.map_cons, h a (List.mem_cons_self _ _),
      map_id_of_forall f l (fun c hc => h c (List.mem_cons_of_mem _ hc))]

theorem collapseHyph_cons (c : Char) (cs : List Char) :
    collapseHyph (c :: cs) =
      if c == '-' && (cs.head?.elim false (· == '-')) then collapseHyph cs
      else c :: collapseHyph cs := rfl

theorem collapseHyph_eq_self :
    ∀ l : List Char, List.Chain' (fun a b => ¬(a = '-' ∧ b = '-')) l →
      collapseHyph l = l
  | [], _ => rfl
  | c :: cs, h => by
    rw [collapseHyph_cons]
    have hparts := List.chain'_cons'.mp h
    rw [if_neg ?hcond, collapseHyph_eq_self cs hparts.2]
    case hcond =>
      simp only [Bool.and_eq_true, beq_iff_eq]
      rintro ⟨rfl, h2⟩
      cases hcs : cs.head? with
      | none => rw [hcs] at h2; simp at h2
      | some d =>
        rw [hcs] at h2
        simp only [Option.elim_some, beq_iff_eq] at h2
        exact hparts.1 d (by rw [hcs]; rfl) ⟨rfl, h2⟩

theorem head?_collapseHyph_ne (d : Char) (ds : List Char) (hd : (d == '-') = false) :
    (collapseHyph (d :: ds)).head? = some d := by
  rw [collapseHyph_cons, if_neg (by simp [hd])]
  rfl

theorem chain'_collapseHyph :
    ∀ l : List Char, List.Chain' (fun a b => ¬(a = '-' ∧ b = '-')) (collapseHyph l)
  | [] => by simp [collapseHyph]
  | c :: cs => by
    rw [collapseHyph_cons]
    split
    · exact chain'_collapseHyph cs
    · rename_i hcond
      rw [List.chain'_cons']
      refine ⟨?_, chain'_collapseHyph cs⟩
      intro y hy hcy
      rcases hcy with ⟨hc, hy'⟩
      cases cs with
      | nil => simp [collapseHyph] at hy
      | cons d ds =>
        by_cases hd : (d == '-') = true
        · exact hcond (by simp [hc, hd])
        · rw [head?_collapseHyph_ne d ds (by simpa using hd)] at hy
          simp only [Option.mem_def, Option.some.injEq] at hy
          subst hy
          rw [hy'] at hd
          simp at hd

theorem dropWhile_head_not (p : Char → Bool) :
    ∀ (l : List Char) (c : Char), (l.dropWhile p).head? = some c → p c = false
  | [], c, h => by simp [List.dropWhile] at h
  | a :: l, c, h => by
    by_cases ha : p a = true
    · rw [List.dropWhile_cons_of_pos ha] at h
      exact dropWhile_head_not p l c h
    · rw [List.dropWhile_cons_of_neg (by simpa using ha)] at h
      simp only [List.head?_cons, Option.some.injEq] at h
      subst h
      simpa using ha

theorem dropWhile_eq_self_of_head (p : Char → Bool) (l : List Char)
    (h : ∀ c, l.head? = some c → p c = false) : l.dropWhile p = l := by
  cases l with
  | nil => rfl
  | cons a l =>
    rw [List.dropWhile_cons_of_neg]
    simp [h a rfl]

theorem prefix_head?_eq {α : Type} {l₁ l₂ : List α} {c : α}
    (hp : l₁ <+: l₂) (h : l₁.head? = some c) : l₂.head? = some c := by
  rcases hp with ⟨t, rfl⟩
  cases l₁ with
  | nil => simp at h
  | cons a l => simpa using h

theorem stripHyphens_reverse (l : List Char) :
    (stripHyphens l).reverse = (l.dropWhile (· == '-')).reverse.dropWhile (· == '-') := by
  unfold stripHyphens
  rw [List.reverse_reverse]

theorem stripHyphens_prefix_dropWhile (l : List Char) :
    stripHyphens l <+: l.dropWhile (· == '-') := by
  unfold stripHyphens
  have h := List.reverse_prefix.mpr
    (List.dropWhile_suffix (l := (l.dropWhile (· == '-')).reverse) (· == '-'))
  simpa using h

theorem stripHyphens_infix_self (l : List Char) : stripHyphens l <:+: l :=
  (stripHyphens_prefix_dropWhile l).isInfix.trans (List.dropWhile_suffix _).isInfix

theorem stripHyphens_head (l : List Char) (c : Char)
    (h : (stripHyphens l).head? = some c) : (c == '-') = false :=
  dropWhile_head_not _ l c (prefix_head?_eq (stripHyphens_prefix_dropWhile l) h)

theorem stripHyphens_last (l : List Char) (c : Char)
    (h : (stripHyphens l).reverse.head? = some c) : (c == '-') = false := by
  rw [stripHyphens_reverse] at h
  exact dropWhile_head_not _ _ c h

theorem stripHyphens_eq_self (l : List Char)
    (h1 : ∀ c, l.head? = some c → (c == '-') = false)
    (h2 : ∀ c, l.reverse.head? = some c → (c == '-') = false) :
    stripHyphens l = l := by
  unfold stripHyphens
  rw [dropWhile_eq_self_of_head _ l h1, dropWhile_eq_self_of_head _ l.reverse h2,
    List.reverse_reverse]

theorem lookup_values_ascii :
    ∀ {l : List (Char × String)},
      (∀ p ∈ l, ∀ ch ∈ p.2.data, ch.toNat < 128) →
      ∀ {a : Char} {r : String}, l.lookup a = some r → ∀ ch ∈ r.data, ch.toNat < 128 := by
  intro l
  induction l with
  | nil => intro _ a r h; simp [List.lookup] at h
  | cons p rest ih =>
    intro hall a r h
    obtain ⟨k, v⟩ := p
    rw [List.lookup_cons] at h
    cases hak : (a == k) with
    | true =>
      rw [hak] at h
      simp only [cond_true, Option.some.injEq] at h
      subst h
      exact hall (k, v) (List.mem_cons_self _ _)
    | false =>
      rw [hak] at h
      simp only [cond_false] at h
      exact ih (fun q hq => hall q (List.mem_cons_of_mem _ hq)) h

theorem ua_values_ascii : ∀ p ∈ UA_TO_LATIN, ∀ ch ∈ p.2.data, ch.toNat < 128 := by
  decide

theorem translit_all_ascii : ∀ l : List Char, ∀ c ∈ translitList l, c.toNat < 128
  | [] => by simp [translitList]
  | a :: l => by
    intro c hc
    simp only [translitList, List.mem_append] at hc
    rcases hc with h1 | h2
    · cases hlook : UA_TO_LATIN.lookup a with
      | some r =>
        rw [hlook] at h1
        exact lookup_values_ascii ua_values_ascii hlook c h1
      | none =>
        rw [hlook] at h1
        by_cases ha : isAsciiChar a = true
        · rw [if_pos ha] at h1
          simp only [List.mem_singleton] at h1
          subst h1
          simpa [isAsciiChar] using ha
        · rw [if_neg ha] at h1
          simp at h1
    · exact translit_all_ascii l c h2

theorem toNat_ofNat_small (n : Nat) (h : n < 128) : (Char.ofNat n).toNat = n := by
  have hv : n.isValidChar := Or.inl (by omega)
  rw [Char.ofNat, dif_pos hv]
  rfl

theorem pyLower_out (e : Char) (he : e.toNat < 128) :
    (pyLower e).toNat < 128 ∧ ¬(65 ≤ (pyLower e).toNat ∧ (pyLower e).toNat ≤ 90) := by
  unfold pyLower
  split
  · rename_i hcond
    simp only [Bool.and_eq_true, decide_eq_true_eq] at hcond
    rw [toNat_ofNat_small (e.toNat + 32) (by omega)]
    omega
  · rename_i hcond
    simp only [Bool.and_eq_true, decide_eq_true_eq, not_and] at hcond
    exact ⟨he, fun hc => hcond hc.1 hc.2⟩

theorem collapseHyph_sublist : ∀ l : List Char, List.Sublist (collapseHyph l) l
  | [] => List.Sublist.refl _
  | c :: cs => by
    rw [collapseHyph_cons]
    split
    · exact (collapseHyph_sublist cs).trans (List.sublist_cons_self _ _)
    · exact (collapseHyph_sublist cs).cons₂ c

theorem slug_chars_good (x : String) : ∀ c ∈ (to_seo_slug x).data, goodChar c = true := by
  intro c hc
  have hc6 : c ∈ stripHyphens (collapseHyph ((((translitList x.data).map pyLower).map
      spaceUnderscoreToHyphen).filter
        (fun c => pyIsAlnumAscii c || c == '-' || c == '.'))) := hc
  have hc5 : c ∈ collapseHyph ((((translitList x.data).map pyLower).map
      spaceUnderscoreToHyphen).filter
        (fun c => pyIsAlnumAscii c || c == '-' || c == '.')) :=
    (stripHyphens_infix_self _).sublist.subset hc6
  have hc4 : c ∈ (((translitList x.data).map pyLower).map
      spaceUnderscoreToHyphen).filter
        (fun c => pyIsAlnumAscii c || c == '-' || c == '.') :=
    (collapseHyph_sublist _).subset hc5
  rw [List.mem_filter] at hc4
  obtain ⟨hc3, hkeep⟩ := hc4
  rw [List.mem_map] at hc3
  obtain ⟨d, hd, rfl⟩ := hc3
  rw [List.mem_map] at hd
  obtain ⟨e, he, rfl⟩ := hd
  have hea : e.toNat < 128 := translit_all_ascii _ e he
  have hlow := pyLower_out e hea
  by_cases hsw : ((pyLower e) == ' ' || (pyLower e) == '_') = true
  · have hdash : spaceUnderscoreToHyphen (pyLower e) = '-' := by
      unfold spaceUnderscoreToHyphen
      rw [if_pos hsw]
    rw [hdash]
    decide
  · have hid : spaceUnderscoreToHyphen (pyLower e) = pyLower e := by
      unfold spaceUnderscoreToHyphen
      rw [if_neg (by simpa using hsw)]
    rw [hid] at hkeep ⊢
    simp only [pyIsAlnumAscii, Bool.or_eq_true, Bool.and_eq_true,
      decide_eq_true_eq, beq_iff_eq] at hkeep
    simp only [goodChar, Bool.or_eq_true, Bool.and_eq_true,
      decide_eq_true_eq, beq_iff_eq]
    rcases hkeep with (((hdig | hup) | hlo) | hdash) | hdot
    · exact Or.inl (Or.inl (Or.inr hdig))
    · exact absurd hup hlow.2
    · exact Or.inl (Or.inl (Or.inl hlo))
    · exact Or.inl (Or.inr hdash)
    · exact Or.inr hdot

theorem slug_chain (x : String) :
    List.Chain' (fun a b => ¬(a = '-' ∧ b = '-')) (to_seo_slug x).data :=
  List.Chain'.infix
    (chain'_collapseHyph ((((translitList x.data).map pyLower).map
      spaceUnderscoreToHyphen).filter
        (fun c => pyIsAlnumAscii c || c == '-' || c == '.')))
    (stripHyphens_infix_self _)

theorem slug_head (x : String) :
    ∀ c, (to_seo_slug x).data.head? = some c → (c == '-') = false :=
  fun c h => stripHyphens_head _ c h

theorem slug_last (x : String) :
    ∀ c, (to_seo_slug x).data.reverse.head? = some c → (c == '-') = false :=
  fun c h => stripHyphens_last _ c h

/-- C7: to_seo_slug is idempotent: slugifying a slug changes nothing.
Every slug consists of lowercase ASCII letters, digits, hyphens and dots,
has no adjacent hyphens and neither starts nor ends with a hyphen, and
each pipeline stage is the identity on such strings. -/
theorem to_seo_slug_idempotent (x : String) :
    to_seo_slug (to_seo_slug x) = to_seo_slug x := by
  have hg := slug_chars_good x
  have e1 : translitList (to_seo_slug x).data = (to_seo_slug x).data :=
    translit_id_of_good _ hg
  have e2 : (to_seo_slug x).data.map pyLower = (to_seo_slug x).data :=
    map_id_of_forall _ _ (fun c hc => pyLower_id_of_good (hg c hc))
  have e3 : (to_seo_slug x).data.map spaceUnderscoreToHyphen = (to_seo_slug x).data :=
    map_id_of_forall _ _ (fun c hc => s2h_id_of_good (hg c hc))
  have e4 : (to_seo_slug x).data.filter
      (fun c => pyIsAlnumAscii c || c == '-' || c == '.') = (to_seo_slug x).data :=
    List.filter_eq_self.mpr (fun c hc => keep_of_good (hg c hc))
  have e5 : collapseHyph (to_seo_slug x).data = (to_seo_slug x).data :=
    collapseHyph_eq_self _ (slug_chain x)
  have e6 : stripHyphens (to_seo_slug x).data = (to_seo_slug x).data :=
    stripHyphens_eq_self _ (slug_head x) (slug_last x)
  calc to_seo_slug (to_seo_slug x)
      = ⟨stripHyphens (collapseHyph ((((translitList (to_seo_slug x).data).map
          pyLower).map spaceUnderscoreToHyphen).filter
            (fun c => pyIsAlnumAscii c || c == '-' || c == '.')))⟩ := rfl
    _ = ⟨(to_seo_slug x).data⟩ := by rw [e1, e2, e3, e4, e5, e6]
    _ = to_seo_slug x := rfl

end WW
